import Mathlib

/-!
# IG3D ray tracer core (`tp.cpp`)

A shallow embedding of the classes of `tp.cpp` and the properties its design
document states about them.

Every definition is written over a scalar type `α` with the operations it uses (the
arithmetic, the comparison, a square root `HasSqrt` where the source calls `sqrt`, an
integer part `HasTrunc` where it converts to `int`), so each one is a computable function
and the same definition is taken at two scalar types:

* at `F32`, the binary32 `float` of the code, with its rounding, overflow, underflow,
  signed zeros and not-a-number: what `tp.cpp` computes;
* at `ℝ` with `Real.sqrt`, where a `float` is read as an exact real: for the properties
  that are stated of exact reals.

Definitions that take no square root can also be evaluated on `ℚ`. A pointer that may be
null is an `Option`. An `int` is the 32-bit machine integer: the result of arithmetic on
it goes through `wrapInt`, and a conversion to it is defined only within its range.
-/

namespace IG3D

/-- The `sqrt` of `<cmath>` on the scalar type that stands for `float`. -/
class HasSqrt (α : Type) where
  /-- The square root. -/
  sqrt : α → α

/-- On the reals `sqrt` is the real square root. -/
noncomputable instance instHasSqrtReal : HasSqrt ℝ where
  sqrt := Real.sqrt

/-- The integer part of a scalar, toward zero, as the conversion of a `float` to an
integer type takes it; there is none for a value that is not a number. -/
class HasTrunc (α : Type) where
  /-- The integer part, toward zero. -/
  trunc : α → Option Int

/-- In an ordered field with a floor the integer part is the floor of a non-negative
number and the ceiling of a negative one. -/
instance instHasTruncFloor {α : Type} [LinearOrderedField α] [FloorRing α] : HasTrunc α where
  trunc x := some (if 0 ≤ x then Int.floor x else Int.ceil x)

/-! ## The binary32 `float`

The values of an IEEE 754 binary32 `float` and its arithmetic: every operation returns the
value nearest to the exact result, ties to even, with gradual underflow, overflow to an
infinity, signed zeros and not-a-number. Each `float` operation of `tp.cpp` is taken to
round once, to binary32 (no wider intermediate format, no fused multiply-add). -/

/-- A binary32 value: not-a-number, an infinity, or the finite number
`(-1)^neg * m * 2^e`. The operations below produce a finite value in one form only:
`m < 2^24` and `-149 ≤ e ≤ 104`, with `2^23 ≤ m` unless `e = -149` (zero is `m = 0`,
`e = -149`). -/
inductive F32 where
  | nan : F32
  | inf (neg : Bool) : F32
  | fin (neg : Bool) (m : Nat) (e : Int) : F32
  deriving DecidableEq

/-- The number of binary digits of `n`, found by halving at most `fuel` times. -/
def F32.bitsAux : Nat → Nat → Nat
  | 0, _ => 0
  | fuel + 1, n => if n = 0 then 0 else F32.bitsAux fuel (n / 2) + 1

/-- The number of binary digits of `n`: `2^(bits n - 1) ≤ n < 2^(bits n)` for `n > 0`. -/
def F32.bits (n : Nat) : Nat :=
  F32.bitsAux n n

/-- The binary32 value nearest to `(-1)^neg * n / d` (for `d > 0`), ties to even.
With `2^e ≤ n / d < 2^(e+1)` the result is a multiple of `2^qe`, `qe = max (e - 23) (-149)`;
`m0` and `r` are the quotient and remainder of `n / d` by `2^qe`. -/
def F32.round (neg : Bool) (n d : Nat) : F32 :=
  if n = 0 then
    F32.fin neg 0 (-149)
  else
    let e0 : Int := (F32.bits n : Int) - (F32.bits d : Int)
    let e : Int := if d * 2 ^ e0.toNat ≤ n * 2 ^ (-e0).toNat then e0 else e0 - 1
    let qe : Int := max (e - 23) (-149)
    let N : Nat := n * 2 ^ (-qe).toNat
    let D : Nat := d * 2 ^ qe.toNat
    let m0 : Nat := N / D
    let r : Nat := N % D
    let m : Nat := if D < 2 * r ∨ (2 * r = D ∧ m0 % 2 = 1) then m0 + 1 else m0
    if m = 16777216 then
      (if 104 < qe + 1 then F32.inf neg else F32.fin neg 8388608 (qe + 1))
    else
      (if 104 < qe then F32.inf neg else F32.fin neg m qe)

/-- The binary32 value nearest to `(-1)^neg * n * 2^e`. -/
def F32.scaled (neg : Bool) (n : Nat) (e : Int) : F32 :=
  F32.round neg (n * 2 ^ e.toNat) (2 ^ (-e).toNat)

/-- The integer `k` with `(-1)^neg * m * 2^e = k * 2^lo`, for `lo ≤ e`. -/
def F32.units (neg : Bool) (m : Nat) (e lo : Int) : Int :=
  (if neg then -1 else 1) * ((m * 2 ^ (e - lo).toNat : Nat) : Int)

/-- Unary minus: the sign is flipped. -/
def F32.neg : F32 → F32
  | F32.nan => F32.nan
  | F32.inf s => F32.inf (!s)
  | F32.fin s m e => F32.fin (!s) m e

/-- Addition. An exact sum zero is `+0`, unless both terms are `-0`. -/
def F32.add : F32 → F32 → F32
  | F32.nan, _ => F32.nan
  | _, F32.nan => F32.nan
  | F32.inf s, F32.inf t => if s = t then F32.inf s else F32.nan
  | F32.inf s, F32.fin _ _ _ => F32.inf s
  | F32.fin _ _ _, F32.inf t => F32.inf t
  | F32.fin s1 m1 e1, F32.fin s2 m2 e2 =>
    let lo := min e1 e2
    let k := F32.units s1 m1 e1 lo + F32.units s2 m2 e2 lo
    if k = 0 then F32.fin (s1 && s2) 0 (-149) else F32.scaled (decide (k < 0)) k.natAbs lo

/-- Subtraction: `x - y` is `x + (-y)`. -/
def F32.sub (x y : F32) : F32 :=
  F32.add x (F32.neg y)

/-- Multiplication; an infinity times zero is not a number. -/
def F32.mul : F32 → F32 → F32
  | F32.nan, _ => F32.nan
  | _, F32.nan => F32.nan
  | F32.inf s, F32.inf t => F32.inf (xor s t)
  | F32.inf s, F32.fin t m _ => if m = 0 then F32.nan else F32.inf (xor s t)
  | F32.fin s m _, F32.inf t => if m = 0 then F32.nan else F32.inf (xor s t)
  | F32.fin s1 m1 e1, F32.fin s2 m2 e2 => F32.scaled (xor s1 s2) (m1 * m2) (e1 + e2)

/-- Division; `0 / 0` and `inf / inf` are not numbers, and a nonzero number divided by zero
is an infinity. -/
def F32.div : F32 → F32 → F32
  | F32.nan, _ => F32.nan
  | _, F32.nan => F32.nan
  | F32.inf _, F32.inf _ => F32.nan
  | F32.inf s, F32.fin t _ _ => F32.inf (xor s t)
  | F32.fin s _ _, F32.inf t => F32.fin (xor s t) 0 (-149)
  | F32.fin s1 m1 e1, F32.fin s2 m2 e2 =>
    if m2 = 0 then
      (if m1 = 0 then F32.nan else F32.inf (xor s1 s2))
    else
      F32.round (xor s1 s2) (m1 * 2 ^ (e1 - e2).toNat) (m2 * 2 ^ (e2 - e1).toNat)

/-- The largest `r` with `r * r ≤ n` among `acc`, `acc + 1`, ..., `acc + 2^k - 1`, found
bit by bit from the top. -/
def F32.isqrtAux : Nat → Nat → Nat → Nat
  | 0, _, acc => acc
  | k + 1, n, acc =>
    if (acc + 2 ^ k) * (acc + 2 ^ k) ≤ n then F32.isqrtAux k n (acc + 2 ^ k)
    else F32.isqrtAux k n acc

/-- The integer square root: the largest `r` with `r * r ≤ n`. -/
def F32.isqrt (n : Nat) : Nat :=
  F32.isqrtAux (F32.bits n) n 0

/-- The square root, correctly rounded. For `m * 2^e` with `e` made even, `r` is the integer
square root of `m * 2^52`; when it is not exact the root lies strictly between `r` and
`r + 1`, where no binary32 value and no midpoint of two lies, so `r + 1/2` rounds as the
root does. -/
def F32.sqrt : F32 → F32
  | F32.nan => F32.nan
  | F32.inf s => if s then F32.nan else F32.inf false
  | F32.fin s m e =>
    if m = 0 then
      F32.fin s 0 (-149)
    else if s then
      F32.nan
    else
      let m2 : Nat := if e % 2 = 0 then m else 2 * m
      let e2 : Int := if e % 2 = 0 then e else e - 1
      let r : Nat := F32.isqrt (m2 * 2 ^ 52)
      let n : Nat := if r * r = m2 * 2 ^ 52 then 2 * r else 2 * r + 1
      F32.scaled false n (e2 / 2 - 27)

/-- The comparison `x < y`: false when either side is not a number; `-0` and `+0` are
equal. -/
def F32.lt : F32 → F32 → Bool
  | F32.nan, _ => false
  | _, F32.nan => false
  | F32.inf s, F32.inf t => s && !t
  | F32.inf s, F32.fin _ _ _ => s
  | F32.fin _ _ _, F32.inf t => !t
  | F32.fin s1 m1 e1, F32.fin s2 m2 e2 =>
    decide (F32.units s1 m1 e1 (min e1 e2) < F32.units s2 m2 e2 (min e1 e2))

/-- The integer part of a finite value, toward zero. -/
def F32.toInt : F32 → Option Int
  | F32.nan => none
  | F32.inf _ => none
  | F32.fin s m e =>
    some ((if s then -1 else 1) * ((m * 2 ^ e.toNat / 2 ^ (-e).toNat : Nat) : Int))

/-- The rational number a finite value stands for. -/
def F32.toRat : F32 → Option ℚ
  | F32.nan => none
  | F32.inf _ => none
  | F32.fin s m e => some ((if s then -1 else 1) * (m : ℚ) * 2 ^ e)

instance F32.instAdd : Add F32 := ⟨F32.add⟩

instance F32.instSub : Sub F32 := ⟨F32.sub⟩

instance F32.instMul : Mul F32 := ⟨F32.mul⟩

instance F32.instDiv : Div F32 := ⟨F32.div⟩

instance F32.instNeg : Neg F32 := ⟨F32.neg⟩

instance F32.instLT : LT F32 := ⟨fun x y => F32.lt x y = true⟩

instance F32.decidableLT (x y : F32) : Decidable (x < y) :=
  inferInstanceAs (Decidable (F32.lt x y = true))

/-- A literal `n` (an integer constant converted to `float`) is the binary32 value nearest
to `n`. -/
instance F32.instOfNat (n : Nat) : OfNat F32 n := ⟨F32.round false n 1⟩

/-- On binary32 `sqrt` is the correctly rounded square root. -/
instance F32.instHasSqrt : HasSqrt F32 := ⟨F32.sqrt⟩

instance F32.instHasTrunc : HasTrunc F32 := ⟨F32.toInt⟩

/-! ## Data model -/

/-- `class Color` (tp.cpp 8-14). -/
structure Color (α : Type) where
  r : α
  g : α
  b : α
  deriving DecidableEq

/-- `class point3D` (tp.cpp 16-21). -/
structure point3D (α : Type) where
  x : α
  y : α
  z : α
  deriving DecidableEq

/-- `class vector3D` (tp.cpp 23-44). -/
structure vector3D (α : Type) where
  x : α
  y : α
  z : α
  deriving DecidableEq

/-- `struct MaterialProps` (tp.cpp 75-80). -/
structure MaterialProps (α : Type) where
  Kd : Color α
  Ks : Color α
  shininess : α
  deriving DecidableEq

/-- `class Uniform_Material` (tp.cpp 87-97): the properties given at construction. -/
structure Uniform_Material (α : Type) where
  props : MaterialProps α

/-- `class Texture_Material` (tp.cpp 82-85): the abstract material, with its one
concrete variant. -/
inductive Texture_Material (α : Type) where
  | uniform (m : Uniform_Material α) : Texture_Material α

/-- `class Object` (tp.cpp 99-109): the `material` pointer, `none` when null. -/
structure Object (α : Type) where
  material : Option (Texture_Material α)

/-- `class Sphere : public Object` (tp.cpp 111-135). -/
structure Sphere (α : Type) extends Object α where
  center : point3D α
  radius : α

/-- `class PointLight : public Light` (tp.cpp 146-163). -/
structure PointLight (α : Type) where
  position : point3D α
  intensity : Color α

/-- `class Camera` (tp.cpp 165-190). -/
structure Camera (α : Type) where
  position : point3D α
  forward : vector3D α
  up : vector3D α
  right : vector3D α
  z_min : α
  fov_alpha : α
  fov_beta : α

/-- `class Image` (tp.cpp 46-74): `int width, height` and the `std::vector<Color> pixels`. -/
structure Image (α : Type) where
  width : Int
  height : Int
  pixels : List (Color α)

/-- What `Image::savePPM` writes to the file (tp.cpp 59-69): the header `P3`, the width and
the height, the maximum value `255`, then one line `r g b` of integer samples for each
pixel. -/
structure PPM where
  magic : String
  width : Int
  height : Int
  maxval : Int
  samples : List (Int × Int × Int)
  deriving DecidableEq

section Operations

variable {α : Type}

/-! ## vector3D operators -/

/-- `vector3D::operator+` (tp.cpp 28-30). -/
def vector3D.add [Add α] (u v : vector3D α) : vector3D α :=
  ⟨u.x + v.x, u.y + v.y, u.z + v.z⟩

/-- `vector3D::operator-` (tp.cpp 31-33). -/
def vector3D.sub [Sub α] (u v : vector3D α) : vector3D α :=
  ⟨u.x - v.x, u.y - v.y, u.z - v.z⟩

/-- `vector3D::operator*` (tp.cpp 34-36). -/
def vector3D.mul [Mul α] (u : vector3D α) (scalar : α) : vector3D α :=
  ⟨u.x * scalar, u.y * scalar, u.z * scalar⟩

/-- `vector3D::operator/` (tp.cpp 37-39). -/
def vector3D.div [Div α] (u : vector3D α) (scalar : α) : vector3D α :=
  ⟨u.x / scalar, u.y / scalar, u.z / scalar⟩

/-- Modelled from the spec: the dot product, "the standard sum-of-products"
(section 4.1); `tp.cpp` has no such member and writes the sum out where it needs it. -/
def vector3D.dot [Add α] [Mul α] (u v : vector3D α) : α :=
  u.x * v.x + u.y * v.y + u.z * v.z

/-- Modelled from the spec: the Euclidean length of a vector (section 3);
`tp.cpp` has no such member. -/
def vector3D.length [Add α] [Mul α] [HasSqrt α] (u : vector3D α) : α :=
  HasSqrt.sqrt (u.dot u)

/-- Modelled from the spec: the point `origin + t*direction` of the `intersect`
contract (section 4.3); `tp.cpp` has no point-plus-vector operation. -/
def rayPoint [Add α] [Mul α] (origin : point3D α) (direction : vector3D α) (t : α) :
    point3D α :=
  ⟨origin.x + t * direction.x, origin.y + t * direction.y, origin.z + t * direction.z⟩

/-! ## Materials and objects -/

/-- `Uniform_Material::getProperties` (tp.cpp 91-96; the source repeats the same
member twice with the same body). -/
def Uniform_Material.getProperties (m : Uniform_Material α) (_p : point3D α) :
    MaterialProps α :=
  m.props

/-- The virtual `Texture_Material::getProperties` (tp.cpp 84), dispatched on the variant. -/
def Texture_Material.getProperties : Texture_Material α → point3D α → MaterialProps α
  | .uniform m, p => m.getProperties p

/-- `Object::getTexture` (tp.cpp 106-108): `material->getProperties(p)`; there is
no result when `material` is null. -/
def Object.getTexture (o : Object α) (p : point3D α) : Option (MaterialProps α) :=
  match o.material with
  | none => none
  | some mat => some (mat.getProperties p)

/-- The constructor `Sphere::Sphere(c, r, mat)` (tp.cpp 115-116): it passes `mat`
to `Object` and stores `c` and `r`; its body is empty. -/
def Sphere.new (c : point3D α) (r : α) (mat : Option (Texture_Material α)) : Sphere α :=
  ⟨⟨mat⟩, c, r⟩

/-! ## Sphere -/

/-- The local `oc` of `Sphere::intersect` (tp.cpp 118). -/
def Sphere.oc [Sub α] (s : Sphere α) (rayOrigin : point3D α) : vector3D α :=
  ⟨rayOrigin.x - s.center.x, rayOrigin.y - s.center.y, rayOrigin.z - s.center.z⟩

/-- The local `a` of `Sphere::intersect` (tp.cpp 120). -/
def Sphere.coefA [Add α] [Mul α] (rayDir : vector3D α) : α :=
  rayDir.x * rayDir.x + rayDir.y * rayDir.y + rayDir.z * rayDir.z

/-- The local `b` of `Sphere::intersect` (tp.cpp 121). -/
def Sphere.coefB [Add α] [Sub α] [Mul α] [OfNat α 2] (s : Sphere α) (rayOrigin : point3D α)
    (rayDir : vector3D α) : α :=
  2 * ((s.oc rayOrigin).x * rayDir.x + (s.oc rayOrigin).y * rayDir.y
    + (s.oc rayOrigin).z * rayDir.z)

/-- The local `c` of `Sphere::intersect` (tp.cpp 122). -/
def Sphere.coefC [Add α] [Sub α] [Mul α] (s : Sphere α) (rayOrigin : point3D α) : α :=
  (s.oc rayOrigin).x * (s.oc rayOrigin).x + (s.oc rayOrigin).y * (s.oc rayOrigin).y
    + (s.oc rayOrigin).z * (s.oc rayOrigin).z - s.radius * s.radius

/-- The local `delta` of `Sphere::intersect` (tp.cpp 123), the discriminant. -/
def Sphere.delta [Add α] [Sub α] [Mul α] [OfNat α 2] [OfNat α 4] (s : Sphere α)
    (rayOrigin : point3D α) (rayDir : vector3D α) : α :=
  s.coefB rayOrigin rayDir * s.coefB rayOrigin rayDir
    - 4 * Sphere.coefA rayDir * s.coefC rayOrigin

/-- `Sphere::intersect` (tp.cpp 117-130). -/
def Sphere.intersect [Add α] [Sub α] [Mul α] [Div α] [Neg α] [LT α]
    [∀ x y : α, Decidable (x < y)] [OfNat α 0] [OfNat α 1] [OfNat α 2] [OfNat α 4] [HasSqrt α]
    (s : Sphere α) (rayOrigin : point3D α) (rayDir : vector3D α) : α :=
  let oc : vector3D α :=
    ⟨rayOrigin.x - s.center.x, rayOrigin.y - s.center.y, rayOrigin.z - s.center.z⟩
  let a := rayDir.x * rayDir.x + rayDir.y * rayDir.y + rayDir.z * rayDir.z
  let b := 2 * (oc.x * rayDir.x + oc.y * rayDir.y + oc.z * rayDir.z)
  let c := oc.x * oc.x + oc.y * oc.y + oc.z * oc.z - s.radius * s.radius
  let delta := b * b - 4 * a * c
  if delta < 0 then
    -1
  else
    (-b - HasSqrt.sqrt delta) / (2 * a)

/-- `Sphere::getNormalAt` (tp.cpp 132-134). -/
def Sphere.getNormalAt [Sub α] [Div α] (s : Sphere α) (p : point3D α) : vector3D α :=
  vector3D.div ⟨p.x - s.center.x, p.y - s.center.y, p.z - s.center.z⟩ s.radius

/-- A point lies on the sphere when its squared distance to the center is the
squared radius. -/
def Sphere.onSurface [Add α] [Sub α] [Mul α] (s : Sphere α) (p : point3D α) : Prop :=
  (p.x - s.center.x) * (p.x - s.center.x) + (p.y - s.center.y) * (p.y - s.center.y)
    + (p.z - s.center.z) * (p.z - s.center.z) = s.radius * s.radius

/-- Membership in the sphere is decidable wherever equality of scalars is. -/
instance Sphere.decidableOnSurface [Add α] [Sub α] [Mul α] [DecidableEq α]
    (s : Sphere α) (p : point3D α) : Decidable (s.onSurface p) := by
  unfold Sphere.onSurface
  infer_instance

/-! ## Point light -/

/-- `PointLight::getDirection` (tp.cpp 156-158). -/
def PointLight.getDirection [Sub α] (l : PointLight α) (p : point3D α) : vector3D α :=
  ⟨l.position.x - p.x, l.position.y - p.y, l.position.z - p.z⟩

/-- `PointLight::getIntensity` (tp.cpp 160-162). -/
def PointLight.getIntensity (l : PointLight α) (_p : point3D α) : Color α :=
  l.intensity

/-! ## Camera -/

/-- Modelled from the spec: the displacement `p - q` between two points, the
`target - eye` of section 4.5; `Camera::Camera` writes `P - C`, but `point3D` declares no
`operator-` in `tp.cpp`. -/
def point3D.sub [Sub α] (p q : point3D α) : vector3D α :=
  ⟨p.x - q.x, p.y - q.y, p.z - q.z⟩

/-- Modelled from the spec: the cross product, "the standard right-handed formula"
(section 4.1); `Camera::Camera` calls `cross`, which `vector3D` does not declare in
`tp.cpp`. -/
def vector3D.cross [Sub α] [Mul α] (u v : vector3D α) : vector3D α :=
  ⟨u.y * v.z - u.z * v.y, u.z * v.x - u.x * v.z, u.x * v.y - u.y * v.x⟩

/-- Modelled from the spec: normalization, the vector divided by its Euclidean length
(sections 3 and 4.1; the spec leaves the zero vector undefined); `Camera::Camera` calls
`normalize`, which `vector3D` does not declare in `tp.cpp`. -/
def vector3D.normalize [Add α] [Mul α] [Div α] [HasSqrt α] (u : vector3D α) : vector3D α :=
  u.div u.length

/-- The constructor `Camera::Camera(C, P, worldUp, z, alpha, beta)` (tp.cpp 175-189). -/
def Camera.new [LinearOrderedField α] [HasSqrt α] (C P : point3D α) (worldUp : vector3D α)
    (z alpha beta : α) : Camera α :=
  let forward := (P.sub C).normalize
  let right := (forward.cross worldUp).normalize
  let up := (right.cross forward).normalize
  ⟨C, forward, up, right, z, alpha, beta⟩

/-! ## Image -/

/-- The largest value of the 32-bit `int`. -/
def INT_MAX : Int := 2147483647

/-- The smallest value of the 32-bit `int`. -/
def INT_MIN : Int := -2147483648

/-- The value of an `int` expression whose exact result is `n`: the two's-complement
residue of `n` in `[-2^31, 2^31)`. It is `n` itself when `n` fits; signed overflow is
undefined in C++, and this is what it produces on the usual platforms. -/
def wrapInt (n : Int) : Int :=
  (n + 2147483648) % 4294967296 - 2147483648

/-- The default constructor `Color()` (tp.cpp 11). -/
def Color.zero [Zero α] : Color α :=
  ⟨0, 0, 0⟩

/-- The constructor `Image::Image(w, h)` (tp.cpp 50): `width(w), height(h), pixels(w * h)`.
The product is an `int`; `std::vector`'s constructor takes it as an unsigned count and
throws (no image results) when it is negative, else makes that many `Color()`. -/
def Image.new [Zero α] (w h : Int) : Option (Image α) :=
  let n := wrapInt (w * h)
  if n < 0 then
    none
  else
    some ⟨w, h, List.replicate n.toNat Color.zero⟩

/-- The index `y * img.width + x` that `main` computes (tp.cpp 198), an `int`. -/
def Image.index (img : Image α) (x y : Int) : Int :=
  wrapInt (wrapInt (y * img.width) + x)

/-- The write `img.pixels[y * img.width + x] = c` of `main` (tp.cpp 198); there is no
result when the index is out of bounds. -/
def Image.setPixel (img : Image α) (x y : Int) (c : Color α) : Option (Image α) :=
  if 0 ≤ img.index x y ∧ img.index x y < img.pixels.length then
    some ⟨img.width, img.height, img.pixels.set (img.index x y).toNat c⟩
  else
    none

/-- `static_cast<int>` of a `float` (tp.cpp 63-65): truncation toward zero. The conversion
is undefined, and there is no result, when the value is not a number or its integer part
does not fit the 32-bit `int`. -/
def static_cast_int [HasTrunc α] (x : α) : Option Int :=
  match HasTrunc.trunc x with
  | none => none
  | some n => if INT_MIN ≤ n ∧ n ≤ INT_MAX then some n else none

/-- One channel of a pixel as `savePPM` writes it: `static_cast<int>(c * 255.99f)`
(tp.cpp 63-65). The constant `255.99f` is the quotient `25599 / 100` in the scalar type:
on binary32 the correctly rounded quotient, which is the `float` nearest to `255.99`. -/
def Image.sample [Mul α] [Div α] [OfNat α 25599] [OfNat α 100] [HasTrunc α] (c : α) :
    Option Int :=
  static_cast_int (c * (25599 / 100))

/-- The three samples `r g b` of one pixel in the loop of `savePPM` (tp.cpp 60-69). -/
def Image.quantize [Mul α] [Div α] [OfNat α 25599] [OfNat α 100] [HasTrunc α]
    (pixel : Color α) : Option (Int × Int × Int) :=
  match Image.sample pixel.r, Image.sample pixel.g, Image.sample pixel.b with
  | some r, some g, some b => some (r, g, b)
  | _, _, _ => none

/-- The samples of the pixels, in order: the loop of `savePPM` (tp.cpp 60-69). -/
def Image.samples [Mul α] [Div α] [OfNat α 25599] [OfNat α 100] [HasTrunc α] :
    List (Color α) → Option (List (Int × Int × Int))
  | [] => some []
  | pixel :: rest =>
    match Image.quantize pixel, Image.samples rest with
    | some q, some qs => some (q :: qs)
    | _, _ => none

/-- `Image::savePPM` (tp.cpp 53-72): nothing is written when the file cannot be opened
(`isOpen` is false); otherwise the header and the samples of every pixel, in order. There
is no defined content when a conversion to `int` is undefined. -/
def Image.savePPM [Mul α] [Div α] [OfNat α 25599] [OfNat α 100] [HasTrunc α] (img : Image α)
    (isOpen : Bool) : Option PPM :=
  if !isOpen then
    none
  else
    match Image.samples img.pixels with
    | none => none
    | some samples => some ⟨"P3", img.width, img.height, 255, samples⟩

/-- The image `main` builds before saving it (tp.cpp 194-198): a 256 x 256 image with the
pixel at `x = 50`, `y = 50` set to `Color(0.5f, 0.23f, 0.1f)`. -/
def mainImage [LinearOrderedField α] : Option (Image α) :=
  match Image.new 256 256 with
  | none => none
  | some img => img.setPixel 50 50 ⟨1 / 2, 23 / 100, 1 / 10⟩

/-! ## The words of the design document about rays and spheres -/

/-- The forward half-line of the ray meets the sphere: some `t ≥ 0` puts
`origin + t*direction` on it. -/
def Sphere.rayMeets [LinearOrderedField α] (s : Sphere α) (origin : point3D α)
    (direction : vector3D α) : Prop :=
  ∃ t : α, 0 ≤ t ∧ s.onSurface (rayPoint origin direction t)

/-- The value `v` is the smallest non-negative `t` that puts `origin + t*direction` on
the sphere. -/
def Sphere.smallestHit [LinearOrderedField α] (s : Sphere α) (origin : point3D α)
    (direction : vector3D α) (v : α) : Prop :=
  0 ≤ v ∧ s.onSurface (rayPoint origin direction v) ∧
    ∀ t : α, 0 ≤ t → s.onSurface (rayPoint origin direction t) → v ≤ t

/-- A grey uniform material, for the sample scenes. -/
def greyMaterial [Div α] [OfNat α 1] [OfNat α 2] [OfNat α 32] : Texture_Material α :=
  .uniform ⟨⟨⟨1 / 2, 1 / 2, 1 / 2⟩, ⟨1, 1, 1⟩, 32⟩⟩

/-- The sphere of radius 1 centered at the origin (the scene of section 8). -/
def unitSphere [Div α] [OfNat α 0] [OfNat α 1] [OfNat α 2] [OfNat α 32] : Sphere α :=
  Sphere.new ⟨0, 0, 0⟩ 1 (some greyMaterial)

end Operations

/-! ## Checks on rational scalars -/

example : (PointLight.mk (⟨0, 5, 5⟩ : point3D ℚ) ⟨1, 1, 1⟩).getDirection ⟨1, 2, 3⟩
    = ⟨-1, 3, 2⟩ := by
  simp only [PointLight.getDirection]
  norm_num

example : (unitSphere : Sphere ℚ).delta ⟨0, 0, 5⟩ ⟨0, 0, -1⟩ = 4 := by
  simp only [Sphere.delta, Sphere.coefA, Sphere.coefB, Sphere.coefC, Sphere.oc, unitSphere,
    Sphere.new]
  norm_num

example : (Sphere.new (⟨1, 1, 1⟩ : point3D ℚ) 2 none).getNormalAt ⟨1, 1, 3⟩ = ⟨0, 0, 1⟩ := by
  simp only [Sphere.getNormalAt, Sphere.new, vector3D.div]
  norm_num

example : (unitSphere : Sphere ℚ).toObject.getTexture ⟨0, 0, 1⟩
    = some ⟨⟨1 / 2, 1 / 2, 1 / 2⟩, ⟨1, 1, 1⟩, 32⟩ := rfl


example : wrapInt (65536 * 65536) = 0 := by decide

example : wrapInt (50 * 256 + 50) = 12850 := by decide

/-! ## Checks on binary32 scalars -/

example : (1 : F32) / 10 = F32.fin false 13421773 (-27) := by decide!

example : (1 : F32) / 3 = F32.fin false 11184811 (-25) := by decide!

example : (16777216 : F32) + 1 = 16777216 := by decide!

example : (16777217 : F32) = 16777216 ∧ (16777219 : F32) = 16777220 := by decide!

example : HasSqrt.sqrt (2 : F32) = F32.fin false 11863283 (-23) := by decide!

example : HasSqrt.sqrt (-(1 : F32)) = F32.nan ∧ (1 : F32) / 0 = F32.inf false ∧
    (0 : F32) / 0 = F32.nan ∧ ¬ (F32.nan < (0 : F32)) := by decide!

example : F32.scaled false 1 (-149) / 2 = 0 ∧ F32.scaled false 3 (-149) / 2
    = F32.scaled false 2 (-149) := by decide!

example : F32.scaled false 16777215 104 + F32.scaled false 1 103 = F32.inf false := by decide!

example : (25599 : F32) / 100 = F32.fin false 16776561 (-16) := by decide!

example : Image.sample ((25601 : F32) / 65536) = some 100 := by decide!

example : static_cast_int ((3000000000 : F32)) = none ∧
    static_cast_int (-((3 : F32) / 2)) = some (-1) := by decide!

example : Image.sample (10000000000 : F32) = none := by decide!

example : (unitSphere : Sphere F32).intersect ⟨0, 0, 5⟩ ⟨0, 0, -1⟩ = 4 := by decide!

example : (unitSphere : Sphere F32).intersect ⟨0, 0, 0⟩ ⟨0, 0, 1⟩ = -1 := by decide!

example : (unitSphere : Sphere F32).intersect ⟨0, 0, 5⟩ ⟨0, 1, 0⟩ = -1 := by decide!

/-! ## The integer helpers of the binary32 arithmetic -/

/-- Halving zero gives no digit. -/
theorem bitsAux_zero (fuel : Nat) : F32.bitsAux fuel 0 = 0 := by
  cases fuel <;> simp [F32.bitsAux]

/-- With enough fuel `bitsAux` counts the binary digits. -/
theorem bitsAux_spec (fuel : Nat) : ∀ n : Nat, n ≤ fuel →
    n < 2 ^ F32.bitsAux fuel n ∧ (0 < n → 2 ^ (F32.bitsAux fuel n - 1) ≤ n) := by
  induction fuel with
  | zero =>
    intro n hn
    have h0 : n = 0 := Nat.le_zero.mp hn
    subst h0
    simp [F32.bitsAux]
  | succ fuel ih =>
    intro n hn
    by_cases h0 : n = 0
    · subst h0
      simp [F32.bitsAux]
    · have hpos : 0 < n := Nat.pos_of_ne_zero h0
      have hhalf : n / 2 ≤ fuel := by omega
      obtain ⟨hlt, hge⟩ := ih (n / 2) hhalf
      simp only [F32.bitsAux, if_neg h0, Nat.add_sub_cancel]
      refine ⟨?_, fun _ => ?_⟩
      · rw [pow_succ]
        omega
      · by_cases h2 : n / 2 = 0
        · rw [h2, bitsAux_zero]
          simpa using hpos
        · have hk := hge (Nat.pos_of_ne_zero h2)
          have hb : 0 < F32.bitsAux fuel (n / 2) := by
            by_contra hb0
            have hz : F32.bitsAux fuel (n / 2) = 0 := by omega
            rw [hz] at hlt
            omega
          have hp : 2 ^ F32.bitsAux fuel (n / 2) = 2 * 2 ^ (F32.bitsAux fuel (n / 2) - 1) := by
            conv_lhs => rw [← Nat.sub_add_cancel hb]
            rw [pow_succ]
            ring
          omega

/-- The number of binary digits: `2^(bits n - 1) ≤ n < 2^(bits n)`. -/
theorem bits_spec (n : Nat) :
    n < 2 ^ F32.bits n ∧ (0 < n → 2 ^ (F32.bits n - 1) ≤ n) :=
  bitsAux_spec n n le_rfl

/-- The bit-by-bit search keeps `acc * acc ≤ n < (acc + 2^k)^2` and ends at the root. -/
theorem isqrtAux_spec (k : Nat) : ∀ n acc : Nat, acc * acc ≤ n →
    n < (acc + 2 ^ k) * (acc + 2 ^ k) →
    F32.isqrtAux k n acc * F32.isqrtAux k n acc ≤ n ∧
      n < (F32.isqrtAux k n acc + 1) * (F32.isqrtAux k n acc + 1) := by
  induction k with
  | zero =>
    intro n acc h1 h2
    simpa [F32.isqrtAux] using ⟨h1, h2⟩
  | succ k ih =>
    intro n acc h1 h2
    simp only [F32.isqrtAux]
    by_cases h : (acc + 2 ^ k) * (acc + 2 ^ k) ≤ n
    · rw [if_pos h]
      apply ih n (acc + 2 ^ k) h
      have : acc + 2 ^ k + 2 ^ k = acc + 2 ^ (k + 1) := by
        rw [pow_succ]
        ring
      rw [this]
      exact h2
    · rw [if_neg h]
      exact ih n acc h1 (not_le.mp h)

/-- The integer square root: `isqrt n` is the largest `r` with `r * r ≤ n`. -/
theorem isqrt_spec (n : Nat) :
    F32.isqrt n * F32.isqrt n ≤ n ∧ n < (F32.isqrt n + 1) * (F32.isqrt n + 1) := by
  apply isqrtAux_spec (F32.bits n) n 0 (by simp)
  have h := (bits_spec n).1
  have h1 : 1 ≤ 2 ^ F32.bits n := Nat.one_le_two_pow
  simp only [Nat.zero_add]
  calc n < 2 ^ F32.bits n := h
    _ = 2 ^ F32.bits n * 1 := (Nat.mul_one _).symm
    _ ≤ 2 ^ F32.bits n * 2 ^ F32.bits n := Nat.mul_le_mul_left _ h1

/-! ## The quadratic behind `Sphere::intersect` -/

/-- On the reals the scalar square root is `Real.sqrt`. -/
@[simp] theorem sqrt_real (x : ℝ) : HasSqrt.sqrt x = Real.sqrt x := rfl

/-- `Sphere::intersect` in terms of its locals `a`, `b` and `delta`. -/
theorem intersect_eq (s : Sphere ℝ) (o : point3D ℝ) (d : vector3D ℝ) :
    s.intersect o d =
      if s.delta o d < 0 then -1
      else (-(s.coefB o d) - Real.sqrt (s.delta o d)) / (2 * Sphere.coefA d) := rfl

/-- `Sphere::intersect` in binary32 in terms of its locals `a`, `b` and `delta`. -/
theorem intersect_eq_float (s : Sphere F32) (o : point3D F32) (d : vector3D F32) :
    s.intersect o d =
      if s.delta o d < 0 then -1
      else (-(s.coefB o d) - HasSqrt.sqrt (s.delta o d)) / (2 * Sphere.coefA d) := rfl

/-- A direction other than `(0,0,0)` has `a > 0`. -/
theorem coefA_pos (d : vector3D ℝ) (hd : d ≠ ⟨0, 0, 0⟩) : 0 < Sphere.coefA d := by
  obtain ⟨x, y, z⟩ := d
  simp only [Sphere.coefA]
  have h : x ≠ 0 ∨ y ≠ 0 ∨ z ≠ 0 := by
    by_contra hc
    push_neg at hc
    obtain ⟨hx, hy, hz⟩ := hc
    exact hd (by rw [hx, hy, hz])
  rcases h with h | h | h
  · have := mul_self_pos.mpr h
    nlinarith [mul_self_nonneg y, mul_self_nonneg z]
  · have := mul_self_pos.mpr h
    nlinarith [mul_self_nonneg x, mul_self_nonneg z]
  · have := mul_self_pos.mpr h
    nlinarith [mul_self_nonneg x, mul_self_nonneg y]

/-- The ray point at parameter `t` is on the sphere exactly when `t` solves
`a t² + b t + c = 0`. -/
theorem onSurface_rayPoint_iff (s : Sphere ℝ) (o : point3D ℝ) (d : vector3D ℝ) (t : ℝ) :
    s.onSurface (rayPoint o d t) ↔
      Sphere.coefA d * t * t + s.coefB o d * t + s.coefC o = 0 := by
  simp only [Sphere.onSurface, rayPoint, Sphere.coefA, Sphere.coefB, Sphere.coefC, Sphere.oc]
  constructor
  · intro h
    linear_combination h
  · intro h
    linear_combination h

/-- The real roots of `a t² + b t + c` for `a > 0`. -/
theorem quad_root_iff (a b c t : ℝ) (ha : 0 < a) :
    a * t * t + b * t + c = 0 ↔
      0 ≤ b * b - 4 * a * c ∧
        (t = (-b - Real.sqrt (b * b - 4 * a * c)) / (2 * a) ∨
          t = (-b + Real.sqrt (b * b - 4 * a * c)) / (2 * a)) := by
  have h2a : (2 * a) ≠ 0 := by positivity
  constructor
  · intro h
    have hsq : (2 * a * t + b) ^ 2 = b * b - 4 * a * c := by
      linear_combination (4 * a) * h
    have hnn : 0 ≤ b * b - 4 * a * c := by
      rw [← hsq]
      exact sq_nonneg _
    refine ⟨hnn, ?_⟩
    have habs : Real.sqrt (b * b - 4 * a * c) = |2 * a * t + b| := by
      rw [← hsq]
      exact Real.sqrt_sq_eq_abs _
    rcases le_or_lt 0 (2 * a * t + b) with hs | hs
    · right
      rw [habs, abs_of_nonneg hs, eq_div_iff h2a]
      ring
    · left
      rw [habs, abs_of_neg hs, eq_div_iff h2a]
      ring
  · rintro ⟨hnn, h⟩
    have hs : Real.sqrt (b * b - 4 * a * c) * Real.sqrt (b * b - 4 * a * c)
        = b * b - 4 * a * c := Real.mul_self_sqrt hnn
    have key : 4 * a * (a * t * t + b * t + c)
        = (2 * a * t + b) ^ 2 - (b * b - 4 * a * c) := by ring
    have hzero : (2 * a * t + b) ^ 2 - (b * b - 4 * a * c) = 0 := by
      rcases h with h | h
      · have e : 2 * a * t + b = -Real.sqrt (b * b - 4 * a * c) := by
          have h1 := (eq_div_iff h2a).mp h
          linear_combination h1
        rw [e]
        linear_combination hs
      · have e : 2 * a * t + b = Real.sqrt (b * b - 4 * a * c) := by
          have h1 := (eq_div_iff h2a).mp h
          linear_combination h1
        rw [e]
        linear_combination hs
    have h4a : (4 * a) ≠ 0 := by positivity
    rcases mul_eq_zero.mp (key.trans hzero) with h0 | h0
    · exact absurd h0 h4a
    · exact h0

/-- The nearer root is a root. -/
theorem nearRoot_isRoot (a b c : ℝ) (ha : 0 < a) (hnn : 0 ≤ b * b - 4 * a * c) :
    a * ((-b - Real.sqrt (b * b - 4 * a * c)) / (2 * a))
        * ((-b - Real.sqrt (b * b - 4 * a * c)) / (2 * a))
      + b * ((-b - Real.sqrt (b * b - 4 * a * c)) / (2 * a)) + c = 0 :=
  (quad_root_iff a b c _ ha).mpr ⟨hnn, Or.inl rfl⟩

/-- The nearer root is below every root. -/
theorem nearRoot_le (a b c t : ℝ) (ha : 0 < a) (h : a * t * t + b * t + c = 0) :
    (-b - Real.sqrt (b * b - 4 * a * c)) / (2 * a) ≤ t := by
  have h2a : 0 < 2 * a := by positivity
  have hs : 0 ≤ Real.sqrt (b * b - 4 * a * c) := Real.sqrt_nonneg _
  rcases ((quad_root_iff a b c t ha).mp h).2 with e | e
  · exact e.ge
  · rw [e]
    apply div_le_div_of_nonneg_right _ h2a.le
    linarith

/-- With `c > 0` (origin strictly outside) a root `t ≥ 0` forces the nearer root to be
positive: the two roots have the product `c / a > 0`. -/
theorem nearRoot_pos (a b c t : ℝ) (ha : 0 < a) (hc : 0 < c) (ht : 0 ≤ t)
    (h : a * t * t + b * t + c = 0) :
    0 < (-b - Real.sqrt (b * b - 4 * a * c)) / (2 * a) := by
  have h2a : 0 < 2 * a := by positivity
  obtain ⟨hnn, hroot⟩ := (quad_root_iff a b c t ha).mp h
  have hs : Real.sqrt (b * b - 4 * a * c) * Real.sqrt (b * b - 4 * a * c)
      = b * b - 4 * a * c := Real.mul_self_sqrt hnn
  have hs0 : 0 ≤ Real.sqrt (b * b - 4 * a * c) := Real.sqrt_nonneg _
  -- `(-b - √δ) (-b + √δ) = 4 a c > 0`
  have hprod : (-b - Real.sqrt (b * b - 4 * a * c)) * (-b + Real.sqrt (b * b - 4 * a * c))
      = 4 * a * c := by
    linear_combination -hs
  have hprod_pos : 0 < (-b - Real.sqrt (b * b - 4 * a * c))
      * (-b + Real.sqrt (b * b - 4 * a * c)) := by
    rw [hprod]
    positivity
  apply div_pos _ h2a
  rcases hroot with e | e
  · -- `t` is the nearer root: it is `≥ 0`, and not `0` since `c ≠ 0`
    have h1 := (eq_div_iff h2a.ne').mp e
    rcases ht.eq_or_lt with h0 | h0
    · rw [← h0] at h
      linarith
    · rw [← h1]
      positivity
  · -- `t` is the farther root: the farther factor is `≥ 0`, so the nearer is `> 0`
    have h1 := (eq_div_iff h2a.ne').mp e
    have hfar : 0 ≤ -b + Real.sqrt (b * b - 4 * a * c) := by
      rw [← h1]
      positivity
    by_contra hneg
    push_neg at hneg
    have := mul_nonpos_of_nonpos_of_nonneg hneg hfar
    linarith

/-- An origin farther from the center than the radius has `c > 0`. -/
theorem coefC_pos_of_outside (s : Sphere ℝ) (o : point3D ℝ) (hr : 0 ≤ s.radius)
    (h : s.radius < (s.oc o).length) : 0 < s.coefC o := by
  have h2 := (Real.lt_sqrt hr).mp h
  simp only [vector3D.dot] at h2
  simp only [Sphere.coefC]
  nlinarith

/-- The value of `intersect` on the hit branch. -/
theorem intersect_of_delta_nonneg (s : Sphere ℝ) (o : point3D ℝ) (d : vector3D ℝ)
    (h : 0 ≤ s.delta o d) :
    s.intersect o d
      = (-(s.coefB o d) - Real.sqrt (s.delta o d)) / (2 * Sphere.coefA d) := by
  rw [intersect_eq, if_neg (not_lt.mpr h)]

/-- The value of `intersect` on the miss branch. -/
theorem intersect_of_delta_neg (s : Sphere ℝ) (o : point3D ℝ) (d : vector3D ℝ)
    (h : s.delta o d < 0) : s.intersect o d = -1 := by
  rw [intersect_eq, if_pos h]

/-! ## C1: the contract of `intersect` -/

/-- C1, as stated, fails: for the unit sphere and the ray from its center `(0,0,0)` along
`(0,0,1)` (radius `1 > 0`, direction not zero) the forward half-line meets the sphere
(at `t = 1`), yet `intersect` returns `-1`, which is not the smallest non-negative hit. -/
theorem intersect_smallestHit_counterexample :
    0 < (unitSphere : Sphere ℝ).radius ∧ (⟨0, 0, 1⟩ : vector3D ℝ) ≠ ⟨0, 0, 0⟩ ∧
      (unitSphere : Sphere ℝ).rayMeets ⟨0, 0, 0⟩ ⟨0, 0, 1⟩ ∧
      (unitSphere : Sphere ℝ).intersect ⟨0, 0, 0⟩ ⟨0, 0, 1⟩ = -1 ∧
      ¬ (unitSphere : Sphere ℝ).smallestHit ⟨0, 0, 0⟩ ⟨0, 0, 1⟩
          ((unitSphere : Sphere ℝ).intersect ⟨0, 0, 0⟩ ⟨0, 0, 1⟩) := by
  have hval : (unitSphere : Sphere ℝ).intersect ⟨0, 0, 0⟩ ⟨0, 0, 1⟩ = -1 := by
    simp only [Sphere.intersect, unitSphere, Sphere.new, sqrt_real]
    norm_num
    rw [show (4 : ℝ) = 2 * 2 by norm_num, Real.sqrt_mul_self (by norm_num)]
    norm_num
  refine ⟨?_, ?_, ?_, hval, ?_⟩
  · simp [unitSphere, Sphere.new]
  · simp
  · exact ⟨1, by norm_num, by simp [Sphere.onSurface, rayPoint, unitSphere, Sphere.new]⟩
  · rw [hval]
    intro h
    have := h.1
    norm_num at this

/-- C1, amended: for a sphere with radius `> 0` and a ray with nonzero direction,
(1) if the origin is strictly outside the sphere (farther from the center than the radius)
and some `t ≥ 0` puts `origin + t*direction` on the sphere, `intersect` returns the
smallest such `t`; (2) for every origin, if no `t ≥ 0` does, `intersect` returns a
negative value. -/
theorem intersect_smallestHit_outside (s : Sphere ℝ) (o : point3D ℝ) (d : vector3D ℝ)
    (hr : 0 < s.radius) (hd : d ≠ ⟨0, 0, 0⟩) :
    (s.radius < (s.oc o).length → s.rayMeets o d → s.smallestHit o d (s.intersect o d)) ∧
      (¬ s.rayMeets o d → s.intersect o d < 0) := by
  have ha := coefA_pos d hd
  constructor
  · rintro hout ⟨t, ht, hon⟩
    have hc := coefC_pos_of_outside s o hr.le hout
    have hroot := (onSurface_rayPoint_iff s o d t).mp hon
    have hnn : 0 ≤ s.delta o d := ((quad_root_iff _ _ _ t ha).mp hroot).1
    rw [intersect_of_delta_nonneg s o d hnn]
    refine ⟨?_, ?_, ?_⟩
    · exact (nearRoot_pos _ _ _ t ha hc ht hroot).le
    · exact (onSurface_rayPoint_iff s o d _).mpr (nearRoot_isRoot _ _ _ ha hnn)
    · intro t2 _ hon2
      exact nearRoot_le _ _ _ t2 ha ((onSurface_rayPoint_iff s o d t2).mp hon2)
  · intro hno
    rcases lt_or_le (s.delta o d) 0 with hneg | hnn
    · rw [intersect_of_delta_neg s o d hneg]
      norm_num
    · rw [intersect_of_delta_nonneg s o d hnn]
      by_contra hge
      push_neg at hge
      exact hno ⟨_, hge, (onSurface_rayPoint_iff s o d _).mpr (nearRoot_isRoot _ _ _ ha hnn)⟩

/-- C1, amended, at the unit sphere seen from `(0,0,5)` along `(0,0,-1)`: the origin is
outside, the ray meets the sphere, and `intersect` returns the smallest hit. -/
theorem intersect_smallestHit_outside_witness :
    0 < (unitSphere : Sphere ℝ).radius ∧ (⟨0, 0, -1⟩ : vector3D ℝ) ≠ ⟨0, 0, 0⟩ ∧
      (unitSphere : Sphere ℝ).radius < ((unitSphere : Sphere ℝ).oc ⟨0, 0, 5⟩).length ∧
      (unitSphere : Sphere ℝ).rayMeets ⟨0, 0, 5⟩ ⟨0, 0, -1⟩ ∧
      (unitSphere : Sphere ℝ).smallestHit ⟨0, 0, 5⟩ ⟨0, 0, -1⟩
        ((unitSphere : Sphere ℝ).intersect ⟨0, 0, 5⟩ ⟨0, 0, -1⟩) := by
  have hr : 0 < (unitSphere : Sphere ℝ).radius := by simp [unitSphere, Sphere.new]
  have hd : (⟨0, 0, -1⟩ : vector3D ℝ) ≠ ⟨0, 0, 0⟩ := by simp
  have hout : (unitSphere : Sphere ℝ).radius
      < ((unitSphere : Sphere ℝ).oc ⟨0, 0, 5⟩).length := by
    simp only [unitSphere, Sphere.new, Sphere.oc, vector3D.length, vector3D.dot, sqrt_real]
    exact (Real.lt_sqrt (by norm_num)).mpr (by norm_num)
  have hmeet : (unitSphere : Sphere ℝ).rayMeets ⟨0, 0, 5⟩ ⟨0, 0, -1⟩ :=
    ⟨4, by norm_num, by
      simp only [Sphere.onSurface, rayPoint, unitSphere, Sphere.new]
      norm_num⟩
  exact ⟨hr, hd, hout, hmeet,
    (intersect_smallestHit_outside unitSphere ⟨0, 0, 5⟩ ⟨0, 0, -1⟩ hr hd).1 hout hmeet⟩

/-! ## A grazing ray in binary32

The unit sphere and the ray from `(1 + 2^-23, 0, 5)` along `(0, 0, -1)`: every coordinate
is a binary32 value. The ray passes the sphere at distance `2^-23`; in binary32 the term
`oc.x * oc.x + oc.y * oc.y + oc.z * oc.z` rounds to `26`, so `c = 25` and `delta = 0`. -/

/-- The binary32 value `8388609 * 2^-23` is the number `1 + 2^-23`. -/
theorem grazing_origin_value :
    (F32.fin false 8388609 (-23)).toRat = some (1 + 1 / 8388608) := by
  simp only [F32.toRat]
  norm_num

/-- In binary32 the code computes `c = 25` and `delta = 0` for the grazing ray, does not
take the miss branch, and returns `5`. -/
theorem grazing_ray_float :
    (unitSphere : Sphere F32).coefC ⟨F32.fin false 8388609 (-23), 0, 5⟩ = 25 ∧
      (unitSphere : Sphere F32).delta ⟨F32.fin false 8388609 (-23), 0, 5⟩ ⟨0, 0, -1⟩ = 0 ∧
      ¬ ((unitSphere : Sphere F32).delta ⟨F32.fin false 8388609 (-23), 0, 5⟩ ⟨0, 0, -1⟩ < 0) ∧
      (unitSphere : Sphere F32).intersect ⟨F32.fin false 8388609 (-23), 0, 5⟩ ⟨0, 0, -1⟩
        = 5 := by
  decide!

/-- Over the reals the discriminant of the grazing ray is negative and no parameter puts
the ray on the sphere. -/
theorem grazing_ray_real :
    (unitSphere : Sphere ℝ).delta ⟨1 + 1 / 8388608, 0, 5⟩ ⟨0, 0, -1⟩ < 0 ∧
      ∀ t : ℝ, ¬ (unitSphere : Sphere ℝ).onSurface
        (rayPoint ⟨1 + 1 / 8388608, 0, 5⟩ ⟨0, 0, -1⟩ t) := by
  have hneg : (unitSphere : Sphere ℝ).delta ⟨1 + 1 / 8388608, 0, 5⟩ ⟨0, 0, -1⟩ < 0 := by
    simp only [Sphere.delta, Sphere.coefA, Sphere.coefB, Sphere.coefC, Sphere.oc, unitSphere,
      Sphere.new]
    norm_num
  refine ⟨hneg, ?_⟩
  intro t hon
  have ha : 0 < Sphere.coefA (⟨0, 0, -1⟩ : vector3D ℝ) := coefA_pos _ (by simp)
  have hnn := ((quad_root_iff _ _ _ t ha).mp ((onSurface_rayPoint_iff _ _ _ t).mp hon)).1
  exact absurd hneg (not_lt.mpr hnn)

/-! ## C2: a ray that misses the sphere -/

/-- C2, as stated, fails in binary32: for the unit sphere and the ray from
`(1 + 2^-23, 0, 5)` along `(0, 0, -1)` (a nonzero direction) no real `t` puts
`origin + t*direction` on the sphere, and the exact discriminant is negative, yet the code
computes `delta = 0`, does not take the miss branch, and returns `5`, not `-1`. -/
theorem intersect_miss_counterexample :
    (F32.fin false 8388609 (-23)).toRat = some (1 + 1 / 8388608) ∧
      (⟨0, 0, -1⟩ : vector3D F32) ≠ ⟨0, 0, 0⟩ ∧
      (∀ t : ℝ, ¬ (unitSphere : Sphere ℝ).onSurface
        (rayPoint ⟨1 + 1 / 8388608, 0, 5⟩ ⟨0, 0, -1⟩ t)) ∧
      (unitSphere : Sphere ℝ).delta ⟨1 + 1 / 8388608, 0, 5⟩ ⟨0, 0, -1⟩ < 0 ∧
      (unitSphere : Sphere F32).intersect ⟨F32.fin false 8388609 (-23), 0, 5⟩ ⟨0, 0, -1⟩ = 5 ∧
      (unitSphere : Sphere F32).intersect ⟨F32.fin false 8388609 (-23), 0, 5⟩ ⟨0, 0, -1⟩
        ≠ -1 :=
  ⟨grazing_origin_value, by decide!, grazing_ray_real.2, grazing_ray_real.1,
    grazing_ray_float.2.2.2, by decide!⟩



/-- C2, amended: reading floats as exact reals, for every sphere and every ray with nonzero
direction, no real `t` puts `origin + t*direction` on the sphere exactly when the
discriminant is `< 0`, and then `Sphere::intersect` returns exactly `-1`; and in binary32,
for every sphere and ray, whenever the discriminant the code computes is `< 0` the code
returns exactly `-1`. -/
theorem intersect_miss (s : Sphere ℝ) (o : point3D ℝ) (d : vector3D ℝ)
    (hd : d ≠ ⟨0, 0, 0⟩) :
    ((∀ t : ℝ, ¬ s.onSurface (rayPoint o d t)) ↔ s.delta o d < 0) ∧
      ((∀ t : ℝ, ¬ s.onSurface (rayPoint o d t)) → s.intersect o d = -1) ∧
      (∀ (s32 : Sphere F32) (o32 : point3D F32) (d32 : vector3D F32),
        s32.delta o32 d32 < 0 → s32.intersect o32 d32 = -1) := by
  have ha := coefA_pos d hd
  have hiff : (∀ t : ℝ, ¬ s.onSurface (rayPoint o d t)) ↔ s.delta o d < 0 := by
    constructor
    · intro hno
      by_contra hnn
      push_neg at hnn
      exact hno _ ((onSurface_rayPoint_iff s o d _).mpr (nearRoot_isRoot _ _ _ ha hnn))
    · intro hneg t hon
      have hnn : 0 ≤ s.delta o d :=
        ((quad_root_iff _ _ _ t ha).mp ((onSurface_rayPoint_iff s o d t).mp hon)).1
      exact absurd hneg (not_lt.mpr hnn)
  refine ⟨hiff, fun hno => intersect_of_delta_neg s o d (hiff.mp hno), ?_⟩
  intro s32 o32 d32 hneg
  rw [intersect_eq_float, if_pos hneg]

/-- C2, amended, at the unit sphere and the ray from `(0,0,5)` along `(0,1,0)`: the
discriminant is `-96` and `intersect` returns `-1`. -/
theorem intersect_miss_witness :
    (⟨0, 1, 0⟩ : vector3D ℝ) ≠ ⟨0, 0, 0⟩ ∧
      (unitSphere : Sphere ℝ).delta ⟨0, 0, 5⟩ ⟨0, 1, 0⟩ = -96 ∧
      (unitSphere : Sphere ℝ).intersect ⟨0, 0, 5⟩ ⟨0, 1, 0⟩ = -1 := by
  have hd : (⟨0, 1, 0⟩ : vector3D ℝ) ≠ ⟨0, 0, 0⟩ := by simp
  have hdelta : (unitSphere : Sphere ℝ).delta ⟨0, 0, 5⟩ ⟨0, 1, 0⟩ = -96 := by
    simp only [Sphere.delta, Sphere.coefA, Sphere.coefB, Sphere.coefC, Sphere.oc, unitSphere,
      Sphere.new]
    norm_num
  have h := intersect_miss unitSphere ⟨0, 0, 5⟩ ⟨0, 1, 0⟩ hd
  exact ⟨hd, hdelta, h.2.1 (h.1.mpr (by rw [hdelta]; norm_num))⟩

/-! ## C3: a ray through the center -/

/-- A vector other than `(0,0,0)` has a positive dot product with itself. -/
theorem dot_self_pos (v : vector3D ℝ) (hv : v ≠ ⟨0, 0, 0⟩) : 0 < v.dot v :=
  coefA_pos v hv

/-- The length of a vector squares to its dot product with itself. -/
theorem length_mul_self (v : vector3D ℝ) : v.length * v.length = v.dot v := by
  simp only [vector3D.length, sqrt_real]
  apply Real.mul_self_sqrt
  simp only [vector3D.dot]
  nlinarith [mul_self_nonneg v.x, mul_self_nonneg v.y, mul_self_nonneg v.z]

/-- C3: for a sphere with radius `r > 0`, an origin at Euclidean distance `D > r` from
the center and the unit direction `(center - origin) / D` from the origin to the center,
`Sphere::intersect` returns `D - r`; the other root of the quadratic,
`(-b + sqrt(delta)) / (2a)`, is `D + r`; and both parameters put the ray point on the
sphere. -/
theorem intersect_through_center (s : Sphere ℝ) (o : point3D ℝ) (D : ℝ)
    (hr : 0 < s.radius) (hdist : (o.sub s.center).length = D) (hD : s.radius < D) :
    s.intersect o ((s.center.sub o).div D) = D - s.radius ∧
      (-(s.coefB o ((s.center.sub o).div D)) + Real.sqrt (s.delta o ((s.center.sub o).div D)))
          / (2 * Sphere.coefA ((s.center.sub o).div D)) = D + s.radius ∧
      s.onSurface (rayPoint o ((s.center.sub o).div D) (D - s.radius)) ∧
      s.onSurface (rayPoint o ((s.center.sub o).div D) (D + s.radius)) := by
  have hDpos : 0 < D := lt_trans hr hD
  have hDne : D ≠ 0 := hDpos.ne'
  have hDD : (o.x - s.center.x) * (o.x - s.center.x) + (o.y - s.center.y) * (o.y - s.center.y)
      + (o.z - s.center.z) * (o.z - s.center.z) = D * D := by
    have h := length_mul_self (o.sub s.center)
    rw [hdist] at h
    simp only [vector3D.dot, point3D.sub] at h
    linarith
  have hA : Sphere.coefA ((s.center.sub o).div D) = 1 := by
    simp only [Sphere.coefA, vector3D.div, point3D.sub]
    field_simp
    linear_combination hDD
  have hB : s.coefB o ((s.center.sub o).div D) = -(2 * D) := by
    simp only [Sphere.coefB, Sphere.oc, vector3D.div, point3D.sub]
    field_simp
    linear_combination (-2) * hDD
  have hC : s.coefC o = D * D - s.radius * s.radius := by
    simp only [Sphere.coefC, Sphere.oc]
    linear_combination hDD
  have hdelta : s.delta o ((s.center.sub o).div D) = (2 * s.radius) * (2 * s.radius) := by
    simp only [Sphere.delta, hA, hB, hC]
    ring
  have hsqrt : Real.sqrt (s.delta o ((s.center.sub o).div D)) = 2 * s.radius := by
    rw [hdelta]
    exact Real.sqrt_mul_self (by linarith)
  have hnn : 0 ≤ s.delta o ((s.center.sub o).div D) := by
    rw [hdelta]
    exact mul_self_nonneg _
  have hon : ∀ t : ℝ, t * t - 2 * D * t + (D * D - s.radius * s.radius) = 0 →
      s.onSurface (rayPoint o ((s.center.sub o).div D) t) := by
    intro t ht
    rw [onSurface_rayPoint_iff, hA, hB, hC]
    linear_combination ht
  refine ⟨?_, ?_, hon _ (by ring), hon _ (by ring)⟩
  · rw [intersect_of_delta_nonneg s o _ hnn, hsqrt, hA, hB]
    ring
  · rw [hsqrt, hA, hB]
    ring

/-- C3 at the unit sphere seen from `(0,0,5)`: the distance is `5`, the direction
`(0,0,-1)`, and `intersect` returns `4`. -/
theorem intersect_through_center_witness :
    (unitSphere : Sphere ℝ).intersect ⟨0, 0, 5⟩ ⟨0, 0, -1⟩ = 4 := by
  have hlen : ((⟨0, 0, 5⟩ : point3D ℝ).sub (unitSphere : Sphere ℝ).center).length = 5 := by
    simp only [unitSphere, Sphere.new, point3D.sub, vector3D.length, vector3D.dot, sqrt_real]
    rw [show ((0 : ℝ) - 0) * (0 - 0) + (0 - 0) * (0 - 0) + (5 - 0) * (5 - 0) = 5 * 5 by
      norm_num]
    exact Real.sqrt_mul_self (by norm_num)
  have h := (intersect_through_center unitSphere ⟨0, 0, 5⟩ 5
    (by simp [unitSphere, Sphere.new]) hlen (by simp [unitSphere, Sphere.new])).1
  have hdir : ((unitSphere : Sphere ℝ).center.sub ⟨0, 0, 5⟩).div 5
      = (⟨0, 0, -1⟩ : vector3D ℝ) := by
    simp only [unitSphere, Sphere.new, point3D.sub, vector3D.div]
    norm_num
  rw [hdir] at h
  rw [h]
  norm_num [unitSphere, Sphere.new]

/-! ## C4: scaling the direction -/

/-- The dot product of a quotient with itself. -/
theorem dot_div_self (v : vector3D ℝ) (k : ℝ) :
    (v.div k).dot (v.div k) = v.dot v / (k * k) := by
  simp only [vector3D.dot, vector3D.div]
  by_cases hk : k = 0
  · simp [hk]
  · field_simp

/-- A vector whose dot product with itself is `1` has length `1`. -/
theorem length_eq_one_of_dot (v : vector3D ℝ) (h : v.dot v = 1) : v.length = 1 := by
  simp only [vector3D.length, sqrt_real, h, Real.sqrt_one]

/-- C5: for a sphere with radius `> 0` and a point `p` with `|p - center| = radius`, the
vector `(p - center) / radius` returned by `Sphere::getNormalAt` has Euclidean length
exactly `1`. -/
theorem getNormalAt_unit (s : Sphere ℝ) (p : point3D ℝ) (hr : 0 < s.radius)
    (hp : (p.sub s.center).length = s.radius) :
    s.getNormalAt p = (p.sub s.center).div s.radius ∧ (s.getNormalAt p).length = 1 := by
  refine ⟨rfl, ?_⟩
  apply length_eq_one_of_dot
  have h := length_mul_self (p.sub s.center)
  rw [hp] at h
  have hrr : s.radius * s.radius ≠ 0 := (mul_pos hr hr).ne'
  show ((p.sub s.center).div s.radius).dot ((p.sub s.center).div s.radius) = 1
  rw [dot_div_self, ← h]
  exact div_self hrr

/-- C5 at the unit sphere and its pole `(0,0,1)`: the normal is `(0,0,1)`, of length `1`. -/
theorem getNormalAt_unit_witness :
    (unitSphere : Sphere ℝ).getNormalAt ⟨0, 0, 1⟩ = ⟨0, 0, 1⟩ ∧
      ((unitSphere : Sphere ℝ).getNormalAt ⟨0, 0, 1⟩).length = 1 := by
  have hp : ((⟨0, 0, 1⟩ : point3D ℝ).sub (unitSphere : Sphere ℝ).center).length
      = (unitSphere : Sphere ℝ).radius := by
    simp [unitSphere, Sphere.new, point3D.sub, vector3D.length, vector3D.dot]
  refine ⟨?_, (getNormalAt_unit unitSphere ⟨0, 0, 1⟩ (by simp [unitSphere, Sphere.new]) hp).2⟩
  simp [Sphere.getNormalAt, vector3D.div, unitSphere, Sphere.new]

/-! ## C6: the camera basis -/

/-- A normalized nonzero vector has dot product `1` with itself. -/
theorem normalize_dot_self (v : vector3D ℝ) (hv : v ≠ ⟨0, 0, 0⟩) :
    v.normalize.dot v.normalize = 1 := by
  have hpos := dot_self_pos v hv
  simp only [vector3D.normalize]
  rw [dot_div_self, length_mul_self]
  exact div_self hpos.ne'

/-- A nonzero vector has positive length. -/
theorem length_pos (v : vector3D ℝ) (hv : v ≠ ⟨0, 0, 0⟩) : 0 < v.length := by
  simp only [vector3D.length, sqrt_real]
  exact Real.sqrt_pos.mpr (dot_self_pos v hv)

/-- A vector with a nonzero dot product with itself is not `(0,0,0)`. -/
theorem ne_zero_of_dot_ne (v : vector3D ℝ) (h : v.dot v ≠ 0) : v ≠ ⟨0, 0, 0⟩ := by
  intro hv
  apply h
  rw [hv]
  simp [vector3D.dot]

/-- The cross product is orthogonal to its left factor. -/
theorem cross_dot_left (u v : vector3D ℝ) : (u.cross v).dot u = 0 := by
  simp only [vector3D.cross, vector3D.dot]
  ring

/-- The cross product is orthogonal to its right factor. -/
theorem cross_dot_right (u v : vector3D ℝ) : (u.cross v).dot v = 0 := by
  simp only [vector3D.cross, vector3D.dot]
  ring

/-- The dot product is symmetric. -/
theorem dot_comm (u v : vector3D ℝ) : u.dot v = v.dot u := by
  simp only [vector3D.dot]
  ring

/-- Dividing the left factor divides the dot product. -/
theorem div_dot (u v : vector3D ℝ) (k : ℝ) : (u.div k).dot v = u.dot v / k := by
  simp only [vector3D.dot, vector3D.div]
  ring

/-- Dividing the left factor divides the cross product. -/
theorem div_cross (u v : vector3D ℝ) (k : ℝ) : (u.div k).cross v = (u.cross v).div k := by
  simp only [vector3D.cross, vector3D.div, vector3D.mk.injEq]
  refine ⟨?_, ?_, ?_⟩ <;> ring

/-- Lagrange's identity: `|u × v|² = |u|² |v|² - (u · v)²`. -/
theorem cross_dot_self (u v : vector3D ℝ) :
    (u.cross v).dot (u.cross v) = u.dot u * v.dot v - u.dot v * u.dot v := by
  simp only [vector3D.cross, vector3D.dot]
  ring

/-- Two distinct points have a nonzero displacement. -/
theorem sub_ne_zero_of_ne (P C : point3D ℝ) (h : P ≠ C) : P.sub C ≠ ⟨0, 0, 0⟩ := by
  intro hv
  apply h
  obtain ⟨px, py, pz⟩ := P
  obtain ⟨cx, cy, cz⟩ := C
  simp only [point3D.sub, vector3D.mk.injEq] at hv
  obtain ⟨hx, hy, hz⟩ := hv
  rw [sub_eq_zero.mp hx, sub_eq_zero.mp hy, sub_eq_zero.mp hz]

/-- The basis built from a unit `forward` and a hint whose cross product with it does
not vanish is orthonormal. -/
theorem basis_orthonormal (f worldUp : vector3D ℝ) (hf : f.dot f = 1)
    (hw : f.cross worldUp ≠ ⟨0, 0, 0⟩) :
    (f.cross worldUp).normalize.length = 1 ∧
      (((f.cross worldUp).normalize).cross f).normalize.length = 1 ∧
      f.dot (f.cross worldUp).normalize = 0 ∧
      f.dot (((f.cross worldUp).normalize).cross f).normalize = 0 ∧
      (f.cross worldUp).normalize.dot (((f.cross worldUp).normalize).cross f).normalize
        = 0 := by
  have hr : (f.cross worldUp).normalize.dot (f.cross worldUp).normalize = 1 :=
    normalize_dot_self _ hw
  have hrf : (f.cross worldUp).normalize.dot f = 0 := by
    simp only [vector3D.normalize]
    rw [div_dot, cross_dot_left, zero_div]
  have hu0 : (((f.cross worldUp).normalize).cross f).dot
      (((f.cross worldUp).normalize).cross f) = 1 := by
    rw [cross_dot_self, hr, hf, hrf]
    norm_num
  have hu0ne : ((f.cross worldUp).normalize).cross f ≠ ⟨0, 0, 0⟩ :=
    ne_zero_of_dot_ne _ (by rw [hu0]; norm_num)
  have hu : (((f.cross worldUp).normalize).cross f).normalize.dot
      (((f.cross worldUp).normalize).cross f).normalize = 1 :=
    normalize_dot_self _ hu0ne
  have huf : (((f.cross worldUp).normalize).cross f).normalize.dot f = 0 := by
    rw [vector3D.normalize, div_dot, cross_dot_right, zero_div]
  have hur : (((f.cross worldUp).normalize).cross f).normalize.dot
      (f.cross worldUp).normalize = 0 := by
    rw [vector3D.normalize, div_dot, cross_dot_left, zero_div]
  refine ⟨length_eq_one_of_dot _ hr, length_eq_one_of_dot _ hu, ?_, ?_, ?_⟩
  · rw [dot_comm, hrf]
  · rw [dot_comm, huf]
  · rw [dot_comm, hur]

/-- C7, as stated, fails: constructing a sphere with radius `-1` and a null material
yields a sphere with exactly that radius and that null material, so not every
constructed sphere has `radius > 0` and a material. -/
theorem sphere_new_invalid_counterexample :
    (Sphere.new (⟨0, 0, 0⟩ : point3D ℝ) (-1) none).radius = -1 ∧
      (Sphere.new (⟨0, 0, 0⟩ : point3D ℝ) (-1) none).material = none ∧
      ¬ (∀ (c : point3D ℝ) (r : ℝ) (mat : Option (Texture_Material ℝ)),
          0 < (Sphere.new c r mat).radius ∧ (Sphere.new c r mat).material ≠ none) := by
  refine ⟨rfl, rfl, ?_⟩
  intro h
  have h1 := (h ⟨0, 0, 0⟩ (-1) none).1
  simp only [Sphere.new] at h1
  norm_num at h1

/-- C7, amended: the constructor of `Sphere` validates nothing and cannot fail: for every
center, radius (also `≤ 0`) and material pointer (also null) it yields the sphere holding
exactly these three values, so a constructed sphere has `radius > 0` and a non-null
material exactly when the arguments do. -/
theorem sphere_new_stores (c : point3D ℝ) (r : ℝ) (mat : Option (Texture_Material ℝ)) :
    (Sphere.new c r mat).center = c ∧ (Sphere.new c r mat).radius = r ∧
      (Sphere.new c r mat).material = mat ∧
      ((0 < (Sphere.new c r mat).radius ∧ (Sphere.new c r mat).material ≠ none) ↔
        (0 < r ∧ mat ≠ none)) :=
  ⟨rfl, rfl, rfl, Iff.rfl⟩

/-! ## C8, C9: the point light -/

/-- C8, as stated, fails in binary32: for the light at `(0.1f, 0, 0)` and the point
`p = (1e8, 0, 0)` the difference `0.1f - 1e8` rounds to `-1e8`, so `getDirection(p)` is
`(-1e8, 0, 0)` and `p` displaced by it is `(0, 0, 0)`, not the light position. -/
theorem getDirection_displace_counterexample :
    (F32.fin false 13421773 (-27)).toRat = some (13421773 / 134217728) ∧
      (1 : F32) / 10 = F32.fin false 13421773 (-27) ∧
      (PointLight.mk (⟨F32.fin false 13421773 (-27), 0, 0⟩ : point3D F32)
          ⟨1, 1, 1⟩).getDirection ⟨100000000, 0, 0⟩ = ⟨-100000000, 0, 0⟩ ∧
      rayPoint (⟨100000000, 0, 0⟩ : point3D F32)
          ((PointLight.mk (⟨F32.fin false 13421773 (-27), 0, 0⟩ : point3D F32)
            ⟨1, 1, 1⟩).getDirection ⟨100000000, 0, 0⟩) 1 = ⟨0, 0, 0⟩ ∧
      rayPoint (⟨100000000, 0, 0⟩ : point3D F32)
          ((PointLight.mk (⟨F32.fin false 13421773 (-27), 0, 0⟩ : point3D F32)
            ⟨1, 1, 1⟩).getDirection ⟨100000000, 0, 0⟩) 1
        ≠ (PointLight.mk (⟨F32.fin false 13421773 (-27), 0, 0⟩ : point3D F32)
            ⟨1, 1, 1⟩).position := by
  refine ⟨?_, by decide!, by decide!, by decide!, by decide!⟩
  simp only [F32.toRat]
  norm_num

/-- C8, amended: for every light position `L` and point `p`, `getDirection(p)` is the
component-wise difference `L - p`, in binary32 (one subtraction for each component) as
over the reals, and its length is not `1` in general (it is not for the light at `(0,5,5)`
seen from `(0,0,0)`); reading floats as exact reals, adding it to `p` gives exactly `L`
and its length is the distance from `p` to `L`. -/
theorem getDirection_unnormalized (l : PointLight ℝ) (p : point3D ℝ) :
    l.getDirection p = ⟨l.position.x - p.x, l.position.y - p.y, l.position.z - p.z⟩ ∧
      l.getDirection p = l.position.sub p ∧
      rayPoint p (l.getDirection p) 1 = l.position ∧
      (l.getDirection p).length
        = Real.sqrt ((l.position.x - p.x) ^ 2 + (l.position.y - p.y) ^ 2
            + (l.position.z - p.z) ^ 2) ∧
      ((PointLight.mk (⟨0, 5, 5⟩ : point3D ℝ) ⟨1, 1, 1⟩).getDirection ⟨0, 0, 0⟩).length
        ≠ 1 ∧
      (∀ (l32 : PointLight F32) (p32 : point3D F32), l32.getDirection p32
        = ⟨l32.position.x - p32.x, l32.position.y - p32.y, l32.position.z - p32.z⟩) ∧
      ((PointLight.mk (⟨0, 5, 5⟩ : point3D F32) ⟨1, 1, 1⟩).getDirection ⟨0, 0, 0⟩).length
        ≠ 1 := by
  refine ⟨rfl, rfl, ?_, ?_, ?_, fun _ _ => rfl, by decide!⟩
  · simp [rayPoint, PointLight.getDirection]
  · simp only [vector3D.length, vector3D.dot, PointLight.getDirection, sqrt_real]
    congr 1
    ring
  · simp only [vector3D.length, vector3D.dot, PointLight.getDirection, sqrt_real]
    rw [Ne, Real.sqrt_eq_one]
    norm_num

/-- C9: for every point light and every two points `p` and `q`, `getIntensity(p)` and
`getIntensity(q)` are both the intensity given at construction. -/
theorem getIntensity_constant (pos : point3D ℝ) (inten : Color ℝ) (p q : point3D ℝ) :
    (PointLight.mk pos inten).getIntensity p = (PointLight.mk pos inten).getIntensity q ∧
      (PointLight.mk pos inten).getIntensity p = inten :=
  ⟨rfl, rfl⟩

/-! ## C10: the uniform material -/

/-- C10: for every `MaterialProps m`, every sphere whose material is
`Uniform_Material(m)` and every point `p`, `Object::getTexture(p)` and
`Uniform_Material::getProperties(p)` both return exactly `m`. -/
theorem uniform_material_ignores_point (m : MaterialProps ℝ) (c : point3D ℝ) (r : ℝ)
    (p : point3D ℝ) :
    (Sphere.new c r (some (.uniform ⟨m⟩))).toObject.getTexture p = some m ∧
      (Uniform_Material.mk m).getProperties p = m ∧
      (Texture_Material.uniform ⟨m⟩).getProperties p = m :=
  ⟨rfl, rfl, rfl⟩

/-! ## C11: the size of the raster -/

/-- An `int` result that fits is not changed. -/
theorem wrapInt_of_fits (n : Int) (h0 : 0 ≤ n) (h1 : n ≤ INT_MAX) : wrapInt n = n := by
  simp only [INT_MAX] at h1
  simp only [wrapInt]
  omega

/-- The constructor on dimensions whose product fits an `int`. -/
theorem image_new_of_fits (w h : Int) (h0 : 0 ≤ w * h) (h1 : w * h ≤ INT_MAX) :
    (Image.new w h : Option (Image ℝ))
      = some ⟨w, h, List.replicate (w * h).toNat Color.zero⟩ := by
  simp only [Image.new, wrapInt_of_fits _ h0 h1]
  rw [if_neg (not_lt.mpr h0)]

/-- C11, as stated, fails: for `w = h = 65536` (both positive) the `int` product `w * h`
wraps to `0` and the image has no pixel at all, not `w * h` of them; for `w = h = 46341`
the product wraps to a negative count and no image is built. -/
theorem image_new_overflow_counterexample :
    (∃ img : Image ℝ, Image.new 65536 65536 = some img ∧ img.width = 65536 ∧
        img.height = 65536 ∧ img.pixels.length = 0 ∧
        (img.pixels.length : Int) ≠ 65536 * 65536) ∧
      (Image.new 46341 46341 : Option (Image ℝ)) = none := by
  constructor
  · refine ⟨⟨65536, 65536, []⟩, ?_, rfl, rfl, rfl, by decide⟩
    have h : wrapInt (65536 * 65536) = 0 := by decide
    simp only [Image.new, h]
    rfl
  · have h : wrapInt (46341 * 46341) = -2147479015 := by decide
    simp only [Image.new, h]
    rfl

/-- C11, amended: for every positive width `w` and height `h` whose product fits an `int`
(`w * h ≤ 2147483647`), `Image(w, h)` has `width = w`, `height = h` and exactly `w * h`
pixels, and every row-major index `y * w + x` with `0 ≤ x < w` and `0 ≤ y < h` is computed
without overflow and is in bounds; in particular the write of `main` at `x = 50`, `y = 50`
of its 256 x 256 image is in bounds (index `12850` of `65536`). -/
theorem image_new_size (w h : Int) (hw : 0 < w) (hh : 0 < h) (hfit : w * h ≤ INT_MAX) :
    (∃ img : Image ℝ, Image.new w h = some img ∧ img.width = w ∧ img.height = h ∧
        (img.pixels.length : Int) = w * h ∧
        ∀ x y : Int, 0 ≤ x → x < w → 0 ≤ y → y < h →
          img.index x y = y * w + x ∧ 0 ≤ img.index x y ∧
            img.index x y < img.pixels.length) ∧
      (∃ img : Image ℝ, mainImage = some img ∧ img.width = 256 ∧ img.height = 256 ∧
        img.pixels.length = 65536 ∧
        img.pixels.get? 12850 = some ⟨1 / 2, 23 / 100, 1 / 10⟩) := by
  have h0 : 0 ≤ w * h := (mul_pos hw hh).le
  constructor
  · refine ⟨⟨w, h, List.replicate (w * h).toNat Color.zero⟩, image_new_of_fits w h h0 hfit,
      rfl, rfl, ?_, ?_⟩
    · simp only [List.length_replicate]
      exact Int.toNat_of_nonneg h0
    · intro x y hx0 hxw hy0 hyh
      have hyw : 0 ≤ y * w := mul_nonneg hy0 hw.le
      have hle : y * w + w ≤ w * h := by nlinarith
      have hidx : (Image.mk w h (List.replicate (w * h).toNat (Color.zero : Color ℝ))).index x y
          = y * w + x := by
        simp only [Image.index]
        rw [wrapInt_of_fits _ hyw (by linarith), wrapInt_of_fits _ (by linarith) (by linarith)]
      rw [hidx]
      refine ⟨rfl, by linarith, ?_⟩
      simp only [List.length_replicate]
      rw [Int.toNat_of_nonneg h0]
      linarith
  · have hnew : (Image.new 256 256 : Option (Image ℝ))
        = some ⟨256, 256, List.replicate 65536 Color.zero⟩ :=
      image_new_of_fits 256 256 (by decide) (by decide)
    have hidx : (Image.mk 256 256 (List.replicate 65536 (Color.zero : Color ℝ))).index 50 50
        = 12850 := by
      simp only [Image.index]
      decide
    refine ⟨⟨256, 256, (List.replicate 65536 (Color.zero : Color ℝ)).set 12850
      ⟨1 / 2, 23 / 100, 1 / 10⟩⟩, ?_, rfl, rfl, ?_, ?_⟩
    · simp only [mainImage, hnew, Image.setPixel, hidx, List.length_replicate]
      rfl
    · simp only [List.length_set, List.length_replicate]
    · rw [List.get?_eq_getElem?, List.getElem?_set_self]
      simp only [List.length_replicate]
      norm_num

/-- C11, amended, at the image of `main`: `Image(256, 256)` has `65536` pixels and the index
of `x = 50`, `y = 50` is `12850`, in bounds. -/
theorem image_new_size_witness :
    ∃ img : Image ℝ, Image.new 256 256 = some img ∧ img.width = 256 ∧ img.height = 256 ∧
      (img.pixels.length : Int) = 256 * 256 ∧
      img.index 50 50 = 50 * 256 + 50 ∧ 0 ≤ img.index 50 50 ∧
      img.index 50 50 < img.pixels.length := by
  obtain ⟨img, hnew, hw, hh, hlen, hidx⟩ :=
    (image_new_size 256 256 (by decide) (by decide) (by decide)).1
  exact ⟨img, hnew, hw, hh, hlen, hidx 50 50 (by decide) (by decide) (by decide) (by decide)⟩

/-! ## C12, C13: the samples `savePPM` writes -/

/-- The conversion to `int` of a real number. -/
theorem static_cast_int_real (x : ℝ) :
    static_cast_int x
      = if INT_MIN ≤ (if 0 ≤ x then Int.floor x else Int.ceil x) ∧
          (if 0 ≤ x then Int.floor x else Int.ceil x) ≤ INT_MAX
        then some (if 0 ≤ x then Int.floor x else Int.ceil x) else none := rfl

/-- The truncation toward zero lies in `0..255` exactly for arguments in `(-1, 256)`. -/
theorem trunc_range_iff (x : ℝ) :
    (0 ≤ (if 0 ≤ x then Int.floor x else Int.ceil x) ∧
        (if 0 ≤ x then Int.floor x else Int.ceil x) ≤ 255) ↔ (-1 < x ∧ x < 256) := by
  by_cases hx : 0 ≤ x
  · rw [if_pos hx]
    have h0 : 0 ≤ Int.floor x := Int.floor_nonneg.mpr hx
    have h1 : Int.floor x < 256 ↔ x < ((256 : Int) : ℝ) := Int.floor_lt
    constructor
    · rintro ⟨_, h⟩
      have h2 := h1.mp (by omega)
      norm_num at h2
      exact ⟨by linarith, h2⟩
    · rintro ⟨_, h⟩
      have h2 := h1.mpr (by norm_num; exact h)
      exact ⟨h0, by omega⟩
  · rw [if_neg hx]
    push_neg at hx
    have h0 : Int.ceil x ≤ 0 := Int.ceil_le.mpr (by norm_num; exact hx.le)
    have h1 : -1 < Int.ceil x ↔ (((-1 : Int)) : ℝ) < x := Int.lt_ceil
    constructor
    · rintro ⟨h, _⟩
      have h2 := h1.mp (by omega)
      norm_num at h2
      exact ⟨h2, by linarith⟩
    · rintro ⟨h, _⟩
      have h2 := h1.mpr (by norm_num; exact h)
      exact ⟨by omega, by omega⟩

/-- The truncation toward zero is monotone. -/
theorem trunc_mono (x y : ℝ) (h : x ≤ y) :
    (if 0 ≤ x then Int.floor x else Int.ceil x)
      ≤ (if 0 ≤ y then Int.floor y else Int.ceil y) := by
  by_cases hx : 0 ≤ x
  · rw [if_pos hx, if_pos (le_trans hx h)]
    exact Int.floor_mono h
  · rw [if_neg hx]
    push_neg at hx
    have hcx : Int.ceil x ≤ 0 := Int.ceil_le.mpr (by norm_num; exact hx.le)
    by_cases hy : 0 ≤ y
    · rw [if_pos hy]
      exact le_trans hcx (Int.floor_nonneg.mpr hy)
    · rw [if_neg hy]
      exact Int.ceil_mono h

/-- A conversion that is defined gives the truncation toward zero, within the `int` range. -/
theorem static_cast_int_some (x : ℝ) (n : Int) (h : static_cast_int x = some n) :
    n = (if 0 ≤ x then Int.floor x else Int.ceil x) ∧ INT_MIN ≤ n ∧ n ≤ INT_MAX := by
  rw [static_cast_int_real] at h
  generalize (if 0 ≤ x then Int.floor x else Int.ceil x) = T at h ⊢
  by_cases hr : INT_MIN ≤ T ∧ T ≤ INT_MAX
  · rw [if_pos hr] at h
    have hn := Option.some.inj h
    rw [← hn]
    exact ⟨rfl, hr.1, hr.2⟩
  · rw [if_neg hr] at h
    exact absurd h (by simp)

/-- The conversion is defined wherever the truncation fits the `int` range. -/
theorem static_cast_int_of_fits (x : ℝ)
    (h0 : INT_MIN ≤ (if 0 ≤ x then Int.floor x else Int.ceil x))
    (h1 : (if 0 ≤ x then Int.floor x else Int.ceil x) ≤ INT_MAX) :
    static_cast_int x = some (if 0 ≤ x then Int.floor x else Int.ceil x) := by
  rw [static_cast_int_real, if_pos ⟨h0, h1⟩]

/-- The conversion lies in `0..255` exactly for arguments in `(-1, 256)`. -/
theorem static_cast_int_range_iff (x : ℝ) :
    (∃ n : Int, static_cast_int x = some n ∧ 0 ≤ n ∧ n ≤ 255) ↔ (-1 < x ∧ x < 256) := by
  constructor
  · rintro ⟨n, hn, h0, h1⟩
    have hs := (static_cast_int_some x n hn).1
    rw [hs] at h0 h1
    exact (trunc_range_iff x).mp ⟨h0, h1⟩
  · intro h
    have hr := (trunc_range_iff x).mpr h
    refine ⟨_, static_cast_int_of_fits x ?_ ?_, hr.1, hr.2⟩
    · simp only [INT_MIN]
      linarith [hr.1]
    · simp only [INT_MAX]
      linarith [hr.2]

/-- The conversion of a number between an integer `n ≥ 0` and its successor. -/
theorem static_cast_int_eq (x : ℝ) (n : Int) (h0 : 0 ≤ n) (hmax : n ≤ INT_MAX)
    (h1 : (n : ℝ) ≤ x) (h2 : x < (n : ℝ) + 1) : static_cast_int x = some n := by
  have hx : 0 ≤ x := le_trans (by exact_mod_cast h0) h1
  have hfl : (if 0 ≤ x then Int.floor x else Int.ceil x) = n := by
    rw [if_pos hx]
    exact Int.floor_eq_iff.mpr ⟨h1, h2⟩
  have h := static_cast_int_of_fits x (by rw [hfl]; simp only [INT_MIN]; linarith)
    (by rw [hfl]; exact hmax)
  rw [h, hfl]

/-- The conversion of a negative number between an integer's predecessor and it. -/
theorem static_cast_int_eq_neg (x : ℝ) (n : Int) (h0 : x < 0) (hmin : INT_MIN ≤ n)
    (h1 : (n : ℝ) - 1 < x) (h2 : x ≤ (n : ℝ)) : static_cast_int x = some n := by
  have hn0 : n ≤ 0 := by
    have : (n : ℝ) < 1 := by linarith
    have h3 : n < 1 := by exact_mod_cast this
    omega
  have hfl : (if 0 ≤ x then Int.floor x else Int.ceil x) = n := by
    rw [if_neg (not_le.mpr h0)]
    exact Int.ceil_eq_iff.mpr ⟨h1, h2⟩
  have h := static_cast_int_of_fits x (by rw [hfl]; exact hmin)
    (by rw [hfl]; simp only [INT_MAX]; linarith)
  rw [h, hfl]

/-- The three samples of a pixel are defined exactly when each channel's is. -/
theorem quantize_eq_some_iff (pixel : Color ℝ) (r g b : Int) :
    Image.quantize pixel = some (r, g, b) ↔
      Image.sample pixel.r = some r ∧ Image.sample pixel.g = some g ∧
        Image.sample pixel.b = some b := by
  simp only [Image.quantize]
  cases hr : Image.sample pixel.r <;> cases hg : Image.sample pixel.g <;>
    cases hb : Image.sample pixel.b <;> simp

/-- The samples of pixels whose channels `c` all have `-1 < c * 255.99 < 256` are defined,
one triple for each pixel, and lie in `0..255`. -/
theorem samples_of_range (pixels : List (Color ℝ))
    (h : ∀ pixel ∈ pixels, ∀ c ∈ [pixel.r, pixel.g, pixel.b],
      -1 < c * (25599 / 100) ∧ c * (25599 / 100) < 256) :
    ∃ qs : List (Int × Int × Int), Image.samples pixels = some qs ∧
      qs.length = pixels.length ∧
      ∀ q ∈ qs, (0 ≤ q.1 ∧ q.1 ≤ 255) ∧ (0 ≤ q.2.1 ∧ q.2.1 ≤ 255) ∧
        (0 ≤ q.2.2 ∧ q.2.2 ≤ 255) := by
  induction pixels with
  | nil => exact ⟨[], rfl, rfl, by simp⟩
  | cons pixel rest ih =>
    obtain ⟨qs, hqs, hlen, hall⟩ := ih (fun p hp => h p (List.mem_cons_of_mem _ hp))
    have hp := h pixel (List.mem_cons_self _ _)
    obtain ⟨r, hr, hr0, hr1⟩ := (static_cast_int_range_iff _).mpr (hp pixel.r (by simp))
    obtain ⟨g, hg, hg0, hg1⟩ := (static_cast_int_range_iff _).mpr (hp pixel.g (by simp))
    obtain ⟨b, hb, hb0, hb1⟩ := (static_cast_int_range_iff _).mpr (hp pixel.b (by simp))
    have hq : Image.quantize pixel = some (r, g, b) :=
      (quantize_eq_some_iff pixel r g b).mpr ⟨hr, hg, hb⟩
    refine ⟨(r, g, b) :: qs, ?_, ?_, ?_⟩
    · simp only [Image.samples, hq, hqs]
    · simp only [List.length_cons, hlen]
    · intro q hqmem
      rcases List.mem_cons.mp hqmem with rfl | hmem
      · exact ⟨⟨hr0, hr1⟩, ⟨hg0, hg1⟩, ⟨hb0, hb1⟩⟩
      · exact hall q hmem

/-- C14, as stated, fails in binary32. For the unit sphere and the ray from
`(1 + 2^-23, 0, 5)` along `(0, 0, -1)` the code's `delta` is `0` (not `< 0`) and the value
returned is `5`, but `origin + 5*direction` is `(1 + 2^-23, 0, 0)`, which is not on the
sphere, whether the equation is evaluated in binary32 or exactly. For the ray from
`(0.5, 0.5, 3)`, whose discriminant is `2` exactly and in binary32, the value returned is
`9617091 * 2^-22`, and that parameter does not put the ray on the sphere either. -/
theorem intersect_on_sphere_counterexample :
    ((⟨0, 0, -1⟩ : vector3D F32) ≠ ⟨0, 0, 0⟩ ∧
        (unitSphere : Sphere F32).delta ⟨F32.fin false 8388609 (-23), 0, 5⟩ ⟨0, 0, -1⟩ = 0 ∧
        (unitSphere : Sphere F32).intersect ⟨F32.fin false 8388609 (-23), 0, 5⟩ ⟨0, 0, -1⟩
          = 5 ∧
        rayPoint (⟨F32.fin false 8388609 (-23), 0, 5⟩ : point3D F32) ⟨0, 0, -1⟩ 5
          = ⟨F32.fin false 8388609 (-23), 0, 0⟩ ∧
        ¬ (unitSphere : Sphere F32).onSurface
          (rayPoint ⟨F32.fin false 8388609 (-23), 0, 5⟩ ⟨0, 0, -1⟩ 5) ∧
        ¬ (unitSphere : Sphere ℝ).onSurface
          (rayPoint ⟨1 + 1 / 8388608, 0, 5⟩ ⟨0, 0, -1⟩ 5)) ∧
      ((unitSphere : Sphere F32).delta ⟨1 / 2, 1 / 2, 3⟩ ⟨0, 0, -1⟩ = 2 ∧
        (unitSphere : Sphere ℝ).delta ⟨1 / 2, 1 / 2, 3⟩ ⟨0, 0, -1⟩ = 2 ∧
        (unitSphere : Sphere F32).intersect ⟨1 / 2, 1 / 2, 3⟩ ⟨0, 0, -1⟩
          = F32.fin false 9617091 (-22) ∧
        (F32.fin false 9617091 (-22)).toRat = some (9617091 / 4194304) ∧
        ¬ (unitSphere : Sphere ℝ).onSurface
          (rayPoint ⟨1 / 2, 1 / 2, 3⟩ ⟨0, 0, -1⟩ (9617091 / 4194304))) := by
  refine ⟨⟨by decide!, grazing_ray_float.2.1, grazing_ray_float.2.2.2, by decide!, by decide!,
    grazing_ray_real.2 5⟩, by decide!, ?_, by decide!, ?_, ?_⟩
  · simp only [Sphere.delta, Sphere.coefA, Sphere.coefB, Sphere.coefC, Sphere.oc, unitSphere,
      Sphere.new]
    norm_num
  · simp only [F32.toRat]
    norm_num
  · simp only [Sphere.onSurface, rayPoint, unitSphere, Sphere.new]
    norm_num

/-- C14, amended: reading floats as exact reals, for every sphere and every ray with
nonzero direction and discriminant `≥ 0` (the tangent case `= 0` included), the value
`t = (-b - sqrt(delta)) / (2a)` returned by `Sphere::intersect` puts
`origin + t*direction` on the sphere, and `t ≤ t'` for every real `t'` that does. -/
theorem intersect_on_sphere_nearest (s : Sphere ℝ) (o : point3D ℝ) (d : vector3D ℝ)
    (hd : d ≠ ⟨0, 0, 0⟩) (hnn : 0 ≤ s.delta o d) :
    s.intersect o d = (-(s.coefB o d) - Real.sqrt (s.delta o d)) / (2 * Sphere.coefA d) ∧
      s.onSurface (rayPoint o d (s.intersect o d)) ∧
      ∀ t : ℝ, s.onSurface (rayPoint o d t) → s.intersect o d ≤ t := by
  have ha := coefA_pos d hd
  have hval := intersect_of_delta_nonneg s o d hnn
  refine ⟨hval, ?_, ?_⟩
  · rw [hval]
    exact (onSurface_rayPoint_iff s o d _).mpr (nearRoot_isRoot _ _ _ ha hnn)
  · intro t hon
    rw [hval]
    exact nearRoot_le _ _ _ t ha ((onSurface_rayPoint_iff s o d t).mp hon)

/-- C14, amended, at a tangent ray: the unit sphere, origin `(1,0,5)`, direction
`(0,0,-1)`; the discriminant is `0`, and the returned value, `5`, is on the sphere and
below every hit. -/
theorem intersect_on_sphere_nearest_witness :
    (unitSphere : Sphere ℝ).delta ⟨1, 0, 5⟩ ⟨0, 0, -1⟩ = 0 ∧
      (unitSphere : Sphere ℝ).intersect ⟨1, 0, 5⟩ ⟨0, 0, -1⟩ = 5 ∧
      (unitSphere : Sphere ℝ).onSurface
        (rayPoint ⟨1, 0, 5⟩ ⟨0, 0, -1⟩ ((unitSphere : Sphere ℝ).intersect ⟨1, 0, 5⟩ ⟨0, 0, -1⟩)) ∧
      ∀ t : ℝ, (unitSphere : Sphere ℝ).onSurface (rayPoint ⟨1, 0, 5⟩ ⟨0, 0, -1⟩ t) →
        (unitSphere : Sphere ℝ).intersect ⟨1, 0, 5⟩ ⟨0, 0, -1⟩ ≤ t := by
  have hdelta : (unitSphere : Sphere ℝ).delta ⟨1, 0, 5⟩ ⟨0, 0, -1⟩ = 0 := by
    simp only [Sphere.delta, Sphere.coefA, Sphere.coefB, Sphere.coefC, Sphere.oc, unitSphere,
      Sphere.new]
    norm_num
  have h := intersect_on_sphere_nearest unitSphere ⟨1, 0, 5⟩ ⟨0, 0, -1⟩ (by simp)
    (by rw [hdelta])
  refine ⟨hdelta, ?_, h.2.1, h.2.2⟩
  rw [h.1, hdelta, Real.sqrt_zero]
  simp only [Sphere.coefA, Sphere.coefB, Sphere.oc, unitSphere, Sphere.new]
  norm_num

/-! ## C15: an origin outside the sphere -/

/-- C15, as stated, fails in binary32: for the unit sphere (radius `1 > 0`), the origin
`(1 + 2^-23, 0, 5)`, which is farther than `1` from the center, and the nonzero direction
`(0, 0, -1)`, no `t ≥ 0` puts `origin + t*direction` on the sphere, yet the code returns
`5`, a value that is `≥ 0`. -/
theorem intersect_sign_counterexample :
    (F32.fin false 8388609 (-23)).toRat = some (1 + 1 / 8388608) ∧
      0 < (unitSphere : Sphere ℝ).radius ∧
      (unitSphere : Sphere ℝ).radius
        < ((⟨1 + 1 / 8388608, 0, 5⟩ : point3D ℝ).sub (unitSphere : Sphere ℝ).center).length ∧
      (⟨0, 0, -1⟩ : vector3D F32) ≠ ⟨0, 0, 0⟩ ∧
      ¬ (unitSphere : Sphere ℝ).rayMeets ⟨1 + 1 / 8388608, 0, 5⟩ ⟨0, 0, -1⟩ ∧
      (unitSphere : Sphere F32).intersect ⟨F32.fin false 8388609 (-23), 0, 5⟩ ⟨0, 0, -1⟩ = 5 ∧
      (0 : F32) < (unitSphere : Sphere F32).intersect
        ⟨F32.fin false 8388609 (-23), 0, 5⟩ ⟨0, 0, -1⟩ := by
  refine ⟨grazing_origin_value, by simp [unitSphere, Sphere.new], ?_, by decide!, ?_,
    grazing_ray_float.2.2.2, by decide!⟩
  · simp only [unitSphere, Sphere.new, point3D.sub, vector3D.length, vector3D.dot, sqrt_real]
    exact (Real.lt_sqrt (by norm_num)).mpr (by norm_num)
  · rintro ⟨t, _, hon⟩
    exact grazing_ray_real.2 t hon

/-- C15, amended: reading floats as exact reals, for a sphere with radius `> 0`, an origin
farther from the center than the radius and a nonzero direction, `Sphere::intersect`
returns a value `≥ 0` if and only if some `t ≥ 0` puts `origin + t*direction` on the
sphere, and then the returned value is the smallest such `t` and is strictly positive. -/
theorem intersect_sign_outside (s : Sphere ℝ) (o : point3D ℝ) (d : vector3D ℝ)
    (hr : 0 < s.radius) (hout : s.radius < (o.sub s.center).length)
    (hd : d ≠ ⟨0, 0, 0⟩) :
    (0 ≤ s.intersect o d ↔ s.rayMeets o d) ∧
      (s.rayMeets o d → s.smallestHit o d (s.intersect o d) ∧ 0 < s.intersect o d) := by
  have ha := coefA_pos d hd
  have hc : 0 < s.coefC o := coefC_pos_of_outside s o hr.le hout
  have hfwd : s.rayMeets o d → s.smallestHit o d (s.intersect o d) ∧ 0 < s.intersect o d := by
    rintro ⟨t, ht, hon⟩
    have hroot := (onSurface_rayPoint_iff s o d t).mp hon
    have hnn : 0 ≤ s.delta o d := ((quad_root_iff _ _ _ t ha).mp hroot).1
    have hpos := nearRoot_pos _ _ _ t ha hc ht hroot
    rw [intersect_of_delta_nonneg s o d hnn]
    refine ⟨⟨hpos.le, ?_, ?_⟩, hpos⟩
    · exact (onSurface_rayPoint_iff s o d _).mpr (nearRoot_isRoot _ _ _ ha hnn)
    · intro t2 _ hon2
      exact nearRoot_le _ _ _ t2 ha ((onSurface_rayPoint_iff s o d t2).mp hon2)
  refine ⟨⟨?_, fun h => (hfwd h).2.le⟩, hfwd⟩
  intro hge
  rcases lt_or_le (s.delta o d) 0 with hneg | hnn
  · rw [intersect_of_delta_neg s o d hneg] at hge
    norm_num at hge
  · rw [intersect_of_delta_nonneg s o d hnn] at hge
    exact ⟨_, hge, (onSurface_rayPoint_iff s o d _).mpr (nearRoot_isRoot _ _ _ ha hnn)⟩

/-- C15, amended, at the unit sphere seen from `(0,0,5)`: along `(0,0,-1)` the ray meets
the sphere and the result is positive; along `(0,0,1)` (away from it) the result is
negative and the ray does not meet the sphere. -/
theorem intersect_sign_outside_witness :
    (0 < (unitSphere : Sphere ℝ).intersect ⟨0, 0, 5⟩ ⟨0, 0, -1⟩ ∧
        (unitSphere : Sphere ℝ).smallestHit ⟨0, 0, 5⟩ ⟨0, 0, -1⟩
          ((unitSphere : Sphere ℝ).intersect ⟨0, 0, 5⟩ ⟨0, 0, -1⟩)) ∧
      ((unitSphere : Sphere ℝ).intersect ⟨0, 0, 5⟩ ⟨0, 0, 1⟩ = -6 ∧
        ¬ (unitSphere : Sphere ℝ).rayMeets ⟨0, 0, 5⟩ ⟨0, 0, 1⟩) := by
  have hr : 0 < (unitSphere : Sphere ℝ).radius := by simp [unitSphere, Sphere.new]
  have hout : (unitSphere : Sphere ℝ).radius
      < ((⟨0, 0, 5⟩ : point3D ℝ).sub (unitSphere : Sphere ℝ).center).length := by
    simp only [unitSphere, Sphere.new, point3D.sub, vector3D.length, vector3D.dot, sqrt_real]
    exact (Real.lt_sqrt (by norm_num)).mpr (by norm_num)
  have hmeet : (unitSphere : Sphere ℝ).rayMeets ⟨0, 0, 5⟩ ⟨0, 0, -1⟩ :=
    ⟨4, by norm_num, by
      simp only [Sphere.onSurface, rayPoint, unitSphere, Sphere.new]
      norm_num⟩
  have hin := intersect_sign_outside unitSphere ⟨0, 0, 5⟩ ⟨0, 0, -1⟩ hr hout (by simp)
  have haway := intersect_sign_outside unitSphere ⟨0, 0, 5⟩ ⟨0, 0, 1⟩ hr hout (by simp)
  have hval : (unitSphere : Sphere ℝ).intersect ⟨0, 0, 5⟩ ⟨0, 0, 1⟩ = -6 := by
    simp only [Sphere.intersect, unitSphere, Sphere.new, sqrt_real]
    norm_num
    rw [show (4 : ℝ) = 2 * 2 by norm_num, Real.sqrt_mul_self (by norm_num)]
    norm_num
  refine ⟨⟨(hin.2 hmeet).2, (hin.2 hmeet).1⟩, hval, ?_⟩
  intro hm
  have := haway.1.mpr hm
  rw [hval] at this
  norm_num at this

/-! ## C16: the division in `intersect` -/

/-- C16, as stated, fails in binary32: for the nonzero direction `(2^-80, 0, 0)` the
product `2^-160` underflows to `0`, so `a = 0` and the denominator `2a` is `0`; from the
origin `(0, 0, 5)` and the unit sphere `delta` is `0`, the miss branch is not taken, and
the code divides `0` by `0`: the result is not a number. The same happens for the direction
`(1e-30f, 0, 0)`. For the direction `(0, 0, -1e20f)` the coefficient `a` overflows and
`delta` is not a number: the miss branch is not taken although the argument of the square
root is not `≥ 0`. -/
theorem intersect_division_counterexample :
    ((⟨F32.round false 1 (10 ^ 30), 0, 0⟩ : vector3D F32) ≠ ⟨0, 0, 0⟩ ∧
        Sphere.coefA (⟨F32.round false 1 (10 ^ 30), 0, 0⟩ : vector3D F32) = 0 ∧
        (unitSphere : Sphere F32).intersect ⟨0, 0, 5⟩ ⟨F32.round false 1 (10 ^ 30), 0, 0⟩
          = F32.nan) ∧
      ((unitSphere : Sphere F32).delta ⟨0, 0, 5⟩ ⟨0, 0, -100000000000000000000⟩ = F32.nan ∧
        ¬ ((unitSphere : Sphere F32).delta ⟨0, 0, 5⟩ ⟨0, 0, -100000000000000000000⟩ < 0) ∧
        ¬ ((0 : F32) < (unitSphere : Sphere F32).delta ⟨0, 0, 5⟩
          ⟨0, 0, -100000000000000000000⟩) ∧
        (unitSphere : Sphere F32).delta ⟨0, 0, 5⟩ ⟨0, 0, -100000000000000000000⟩ ≠ 0) ∧
      (F32.fin false 8388608 (-103)).toRat = some (1 / 2 ^ 80) ∧
      (⟨F32.fin false 8388608 (-103), 0, 0⟩ : vector3D F32) ≠ ⟨0, 0, 0⟩ ∧
      Sphere.coefA (⟨F32.fin false 8388608 (-103), 0, 0⟩ : vector3D F32) = 0 ∧
      ¬ ((0 : F32) < Sphere.coefA (⟨F32.fin false 8388608 (-103), 0, 0⟩ : vector3D F32)) ∧
      (2 : F32) * Sphere.coefA (⟨F32.fin false 8388608 (-103), 0, 0⟩ : vector3D F32) = 0 ∧
      (unitSphere : Sphere F32).delta ⟨0, 0, 5⟩ ⟨F32.fin false 8388608 (-103), 0, 0⟩ = 0 ∧
      ¬ ((unitSphere : Sphere F32).delta ⟨0, 0, 5⟩ ⟨F32.fin false 8388608 (-103), 0, 0⟩ < 0) ∧
      (unitSphere : Sphere F32).intersect ⟨0, 0, 5⟩ ⟨F32.fin false 8388608 (-103), 0, 0⟩
        = F32.nan := by
  refine ⟨by decide!, by decide!, ?_, by decide!, by decide!, by decide!, by decide!,
    by decide!, by decide!, by decide!⟩
  simp only [F32.toRat]
  norm_num

/-- The coefficient `a` is positive exactly for directions other than `(0,0,0)`. -/
theorem coefA_pos_iff (d : vector3D ℝ) : 0 < Sphere.coefA d ↔ d ≠ ⟨0, 0, 0⟩ := by
  constructor
  · intro h hd
    rw [hd] at h
    simp [Sphere.coefA] at h
  · exact coefA_pos d

/-- C16, amended: reading floats as exact reals, the denominator `2a` of
`Sphere::intersect` is nonzero exactly for nonzero directions: for a nonzero direction
`a > 0`, and on the hit branch (where `delta < 0` fails) the argument of the square root is
`≥ 0`; for the direction `(0,0,0)` the discriminant is `0`, the miss branch is not taken,
and the result is the quotient whose denominator `2a` is `0`. -/
theorem intersect_division_defined (s : Sphere ℝ) (o : point3D ℝ) (d : vector3D ℝ) :
    (0 < Sphere.coefA d ↔ d ≠ ⟨0, 0, 0⟩) ∧
      (2 * Sphere.coefA d ≠ 0 ↔ d ≠ ⟨0, 0, 0⟩) ∧
      (¬ s.delta o d < 0 → 0 ≤ s.delta o d ∧
        s.intersect o d
          = (-(s.coefB o d) - Real.sqrt (s.delta o d)) / (2 * Sphere.coefA d)) ∧
      (Sphere.coefA (⟨0, 0, 0⟩ : vector3D ℝ) = 0 ∧ s.delta o ⟨0, 0, 0⟩ = 0 ∧
        ¬ s.delta o ⟨0, 0, 0⟩ < 0 ∧ 2 * Sphere.coefA (⟨0, 0, 0⟩ : vector3D ℝ) = 0 ∧
        s.intersect o ⟨0, 0, 0⟩
          = (-(s.coefB o ⟨0, 0, 0⟩) - Real.sqrt (s.delta o ⟨0, 0, 0⟩))
              / (2 * Sphere.coefA (⟨0, 0, 0⟩ : vector3D ℝ))) := by
  have hA0 : Sphere.coefA (⟨0, 0, 0⟩ : vector3D ℝ) = 0 := by simp [Sphere.coefA]
  have hD0 : s.delta o ⟨0, 0, 0⟩ = 0 := by
    simp [Sphere.delta, Sphere.coefA, Sphere.coefB]
  refine ⟨coefA_pos_iff d, ?_, ?_, hA0, hD0, ?_, ?_, ?_⟩
  · rw [← coefA_pos_iff]
    constructor
    · intro h
      have h1 : Sphere.coefA d ≠ 0 := fun h0 => h (by rw [h0, mul_zero])
      have h2 : 0 ≤ Sphere.coefA d := by
        simp only [Sphere.coefA]
        nlinarith [mul_self_nonneg d.x, mul_self_nonneg d.y, mul_self_nonneg d.z]
      exact lt_of_le_of_ne h2 (Ne.symm h1)
    · intro h
      positivity
  · intro h
    exact ⟨not_lt.mp h, intersect_of_delta_nonneg s o d (not_lt.mp h)⟩
  · rw [hD0]
    exact lt_irrefl 0
  · rw [hA0, mul_zero]
  · exact intersect_of_delta_nonneg s o _ (by rw [hD0])

/-! ## C17: the value `-1` -/

/-- C17: some ray with nonzero direction whose forward half-line meets the sphere gets
exactly `-1`: for the unit sphere and the ray from `(0,0,0)` along `(0,0,1)` the
discriminant is `4`, the parameters `-1` and `1` both lie on the sphere, and `intersect`
returns `-1`, the value it also returns for the ray from `(0,0,5)` along `(0,1,0)`, which
misses the sphere. -/
theorem sentinel_not_reserved :
    (∃ (s : Sphere ℝ) (o : point3D ℝ) (d : vector3D ℝ),
        d ≠ ⟨0, 0, 0⟩ ∧ s.rayMeets o d ∧ s.intersect o d = -1) ∧
      ((unitSphere : Sphere ℝ).delta ⟨0, 0, 0⟩ ⟨0, 0, 1⟩ = 4 ∧
        (unitSphere : Sphere ℝ).onSurface (rayPoint ⟨0, 0, 0⟩ ⟨0, 0, 1⟩ (-1)) ∧
        (unitSphere : Sphere ℝ).onSurface (rayPoint ⟨0, 0, 0⟩ ⟨0, 0, 1⟩ 1) ∧
        (unitSphere : Sphere ℝ).intersect ⟨0, 0, 0⟩ ⟨0, 0, 1⟩ = -1) ∧
      ((unitSphere : Sphere ℝ).delta ⟨0, 0, 5⟩ ⟨0, 1, 0⟩ < 0 ∧
        (∀ t : ℝ, ¬ (unitSphere : Sphere ℝ).onSurface (rayPoint ⟨0, 0, 5⟩ ⟨0, 1, 0⟩ t)) ∧
        (unitSphere : Sphere ℝ).intersect ⟨0, 0, 5⟩ ⟨0, 1, 0⟩ = -1) := by
  have hdelta : (unitSphere : Sphere ℝ).delta ⟨0, 0, 0⟩ ⟨0, 0, 1⟩ = 4 := by
    simp only [Sphere.delta, Sphere.coefA, Sphere.coefB, Sphere.coefC, Sphere.oc, unitSphere,
      Sphere.new]
    norm_num
  have hval : (unitSphere : Sphere ℝ).intersect ⟨0, 0, 0⟩ ⟨0, 0, 1⟩ = -1 := by
    rw [intersect_of_delta_nonneg _ _ _ (by rw [hdelta]; norm_num), hdelta,
      show (4 : ℝ) = 2 * 2 by norm_num, Real.sqrt_mul_self (by norm_num)]
    simp only [Sphere.coefA, Sphere.coefB, Sphere.oc, unitSphere, Sphere.new]
    norm_num
  have hon1 : (unitSphere : Sphere ℝ).onSurface (rayPoint ⟨0, 0, 0⟩ ⟨0, 0, 1⟩ 1) := by
    simp [Sphere.onSurface, rayPoint, unitSphere, Sphere.new]
  have hon2 : (unitSphere : Sphere ℝ).onSurface (rayPoint ⟨0, 0, 0⟩ ⟨0, 0, 1⟩ (-1)) := by
    simp [Sphere.onSurface, rayPoint, unitSphere, Sphere.new]
  have hmiss : (unitSphere : Sphere ℝ).delta ⟨0, 0, 5⟩ ⟨0, 1, 0⟩ < 0 := by
    simp only [Sphere.delta, Sphere.coefA, Sphere.coefB, Sphere.coefC, Sphere.oc, unitSphere,
      Sphere.new]
    norm_num
  refine ⟨⟨unitSphere, ⟨0, 0, 0⟩, ⟨0, 0, 1⟩, by simp, ⟨1, by norm_num, hon1⟩, hval⟩,
    ⟨hdelta, hon2, hon1, hval⟩, hmiss, ?_, intersect_of_delta_neg _ _ _ hmiss⟩
  intro t hon
  have ha : 0 < Sphere.coefA (⟨0, 1, 0⟩ : vector3D ℝ) := coefA_pos _ (by simp)
  have hnn := ((quad_root_iff _ _ _ t ha).mp ((onSurface_rayPoint_iff _ _ _ t).mp hon)).1
  exact absurd hmiss (not_lt.mpr hnn)

/-! ## C18: the operators of `vector3D` -/

/-- C18: the operators of `vector3D` act component by component, and for all vectors
`v`, `w` and every scalar `k ≠ 0`: `(v + w) - w = v`, `v + w = w + v`, `(v * k) / k = v`
and `(v + w) * k = v * k + w * k`. -/
theorem vector3D_operators (v w : vector3D ℝ) (k : ℝ) (hk : k ≠ 0) :
    (v.add w = ⟨v.x + w.x, v.y + w.y, v.z + w.z⟩ ∧
        v.sub w = ⟨v.x - w.x, v.y - w.y, v.z - w.z⟩ ∧
        v.mul k = ⟨v.x * k, v.y * k, v.z * k⟩ ∧
        v.div k = ⟨v.x / k, v.y / k, v.z / k⟩) ∧
      (v.add w).sub w = v ∧ v.add w = w.add v ∧ (v.mul k).div k = v ∧
      (v.add w).mul k = (v.mul k).add (w.mul k) := by
  obtain ⟨vx, vy, vz⟩ := v
  obtain ⟨wx, wy, wz⟩ := w
  refine ⟨⟨rfl, rfl, rfl, rfl⟩, ?_, ?_, ?_, ?_⟩
  · simp only [vector3D.add, vector3D.sub, vector3D.mk.injEq]
    refine ⟨?_, ?_, ?_⟩ <;> ring
  · simp only [vector3D.add, vector3D.mk.injEq]
    refine ⟨?_, ?_, ?_⟩ <;> ring
  · simp only [vector3D.mul, vector3D.div, vector3D.mk.injEq]
    refine ⟨?_, ?_, ?_⟩ <;> field_simp
  · simp only [vector3D.add, vector3D.mul, vector3D.mk.injEq]
    refine ⟨?_, ?_, ?_⟩ <;> ring

/-- C18 at `v = (1,2,3)`, `w = (4,5,6)` and `k = 2`. -/
theorem vector3D_operators_witness :
    (2 : ℝ) ≠ 0 ∧
      ((⟨1, 2, 3⟩ : vector3D ℝ).add ⟨4, 5, 6⟩).sub ⟨4, 5, 6⟩ = ⟨1, 2, 3⟩ ∧
      (⟨1, 2, 3⟩ : vector3D ℝ).add ⟨4, 5, 6⟩ = (⟨4, 5, 6⟩ : vector3D ℝ).add ⟨1, 2, 3⟩ ∧
      ((⟨1, 2, 3⟩ : vector3D ℝ).mul 2).div 2 = ⟨1, 2, 3⟩ ∧
      ((⟨1, 2, 3⟩ : vector3D ℝ).add ⟨4, 5, 6⟩).mul 2
        = ((⟨1, 2, 3⟩ : vector3D ℝ).mul 2).add ((⟨4, 5, 6⟩ : vector3D ℝ).mul 2) :=
  ⟨by norm_num, (vector3D_operators ⟨1, 2, 3⟩ ⟨4, 5, 6⟩ 2 (by norm_num)).2⟩

end IG3D
